import Mathlib

/-!
Verification of the Shortinho backend admission/pipeline layer.

Shallow embedding of the request-admission controller (`src/backend/server.js`),
the rate limiter (`src/backend/middlewares/rateLimiter.js`), the cost gate
(`src/unnamed/part_007`, the costProtection middleware), the database service
(`src/unnamed/part_008`, database.js) and the description cleaner
(`Platform.cleanDescription` / `analyzer.cleanDescription`).

Strings are modelled as `List Char`; times are naturals (Unix milliseconds);
scores are rationals.  Database effects and external collaborators (video
pipeline, LLM, object store) are modelled by explicit environment records that
carry the outcome of each external call, and the handlers are pure functions
of those environments.
-/

namespace Shortinho

/-! ### Character classes used by the JS regexes -/

/-- JavaScript regex class `\s` (and the character set trimmed by
    `String.prototype.trim`): tab, LF, VT, FF, CR, space, NBSP and the
    Unicode space separators, line/paragraph separators and BOM. -/
def isJsWs (c : Char) : Bool :=
  c.val == 9 || c.val == 10 || c.val == 11 || c.val == 12 || c.val == 13 ||
  c.val == 32 || c.val == 0xa0 || c.val == 0x1680 ||
  (0x2000 ≤ c.val && c.val ≤ 0x200a) ||
  c.val == 0x2028 || c.val == 0x2029 || c.val == 0x202f ||
  c.val == 0x205f || c.val == 0x3000 || c.val == 0xfeff

/-- JavaScript regex class `\w` (no unicode flag): `[A-Za-z0-9_]`. -/
def isWordC (c : Char) : Bool :=
  ('a' ≤ c && c ≤ 'z') || ('A' ≤ c && c ≤ 'Z') || ('0' ≤ c && c ≤ '9') || c == '_'

/-! ### `cleanDescription` (Platform.cleanDescription in
    `src/backend/services/platforms/youtube/YouTubePlatform.js` lines 280-286,
    identical to `cleanDescription` in `src/backend/services/analyzer.js`
    lines 144-150):
    `rawText.replace(/\s+/g, ' ').replace(/#\w+/g, '').trim()`,
    and `''` for falsy input. -/

/-- One-pass scanner for `.replace(/\s+/g, ' ')`.  `prevWs` records whether the
    previous input character belonged to a whitespace run whose single
    replacement space has already been emitted. -/
def collapseWsAux (prevWs : Bool) : List Char → List Char
  | [] => []
  | c :: rest =>
    if isJsWs c then
      if prevWs then collapseWsAux true rest
      else ' ' :: collapseWsAux true rest
    else c :: collapseWsAux false rest

/-- JS `.replace(/\s+/g, ' ')`: every maximal run of whitespace becomes one space. -/
def collapseWs (l : List Char) : List Char :=
  collapseWsAux false l

/-- Scanner state for `.replace(/#\w+/g, '')`: in `norm` we copy characters;
    `afterHash` means the previous character was a `#` not yet known to start a
    match (it is emitted only if no word character follows); `inTag` means we
    are inside the word-character run of a match (being deleted). -/
inductive TagSt
  | norm
  | afterHash
  | inTag
deriving DecidableEq

/-- One-pass scanner for `.replace(/#\w+/g, '')` (left-to-right, maximal
    nonempty word run after each `#`). -/
def stripTagsAux : TagSt → List Char → List Char
  | .norm, [] => []
  | .norm, c :: rest =>
    if c = '#' then stripTagsAux .afterHash rest else c :: stripTagsAux .norm rest
  | .afterHash, [] => ['#']
  | .afterHash, c :: rest =>
    if isWordC c then stripTagsAux .inTag rest
    else if c = '#' then '#' :: stripTagsAux .afterHash rest
    else '#' :: c :: stripTagsAux .norm rest
  | .inTag, [] => []
  | .inTag, c :: rest =>
    if isWordC c then stripTagsAux .inTag rest
    else if c = '#' then stripTagsAux .afterHash rest
    else c :: stripTagsAux .norm rest

/-- JS `.replace(/#\w+/g, '')`: remove each `#` followed by a maximal nonempty
    run of word characters. -/
def stripTags (l : List Char) : List Char :=
  stripTagsAux .norm l

/-- JS `String.prototype.trim`: drop JS whitespace from both ends. -/
def trimWs (l : List Char) : List Char :=
  (l.dropWhile isJsWs).rdropWhile isJsWs

/-- The method `Platform.cleanDescription` on a `List Char` model of the string.
    A falsy argument (the empty string) yields the empty string. -/
def cleanDescription (l : List Char) : List Char :=
  if l = [] then [] else trimWs (stripTags (collapseWs l))

/-! ### Fuzzy similarity (`similarityScore` in `src/unnamed/part_008`,
    database.js lines 50-76) -/

/-- JavaScript `str.split(' ')`: split on every single space character,
    keeping empty pieces. -/
def splitSp : List Char → List (List Char)
  | [] => [[]]
  | c :: rest =>
    if c = ' ' then [] :: splitSp rest
    else
      match splitSp rest with
      | w :: ws => (c :: w) :: ws
      | [] => [[c]]

/-- Boolean list-prefix test. -/
def isPrefixL : List Char → List Char → Bool
  | [], _ => true
  | _ :: _, [] => false
  | a :: as, b :: bs => a = b && isPrefixL as bs

/-- JavaScript `hay.includes(needle)`: `needle` occurs contiguously in `hay`. -/
def isSubstrL (needle hay : List Char) : Bool :=
  (List.range (hay.length + 1)).any fun i => isPrefixL needle (hay.drop i)

/-- JS `Math.max` on rationals (kernel-reducible). -/
def maxQ (a b : ℚ) : ℚ :=
  if a ≤ b then b else a

/-- The function `similarityScore(str1, str2)` from database.js, over exact rationals:
    `1.0` on exact match; `0.8` when either string occurs in the other and the
    shorter has at least 3 characters; otherwise the proportion of `str1`'s
    word list (split on `' '`, with duplicates) whose words occur in `str2`'s
    word list, divided by the larger word-list length, floored at `0.7` when
    every word of the shorter word list occurs in the longer one. -/
def similarityScore (str1 str2 : List Char) : ℚ :=
  let words1 := splitSp str1
  let words2 := splitSp str2
  if str1 = str2 then 1
  else if 3 ≤ Nat.min str1.length str2.length ∧
      (isSubstrL str2 str1 = true ∨ isSubstrL str1 str2 = true) then (4 : ℚ)/5
  else
    let commonWords := words1.filter fun w => words2.any fun v => v = w
    let totalWords := Nat.max words1.length words2.length
    let wordScore : ℚ := (commonWords.length : ℚ) / (totalWords : ℚ)
    let shortestWords := if words1.length ≤ words2.length then words1 else words2
    let longestWords := if words2.length < words1.length then words1 else words2
    let allWordsMatched := shortestWords.all fun w => longestWords.any fun v => v = w
    if allWordsMatched then maxQ wordScore ((7 : ℚ)/10) else wordScore

/-- The reference score of the specification (claim C6), written from its
    words: word SETS (`dedup` of the split), `wordScore = |W_a ∩ W_b| /
    max(|W_a|, |W_b|)`, the `0.7` floor when every word of the smaller set is
    contained in the larger set, and `0.8` when the shorter string is a
    substring of the longer and both have at least 3 characters. -/
def refSimilarityScore (a b : List Char) : ℚ :=
  if a = b then 1
  else if 3 ≤ Nat.min a.length b.length ∧
      (if a.length ≤ b.length then isSubstrL a b = true else isSubstrL b a = true) then
    (4 : ℚ)/5
  else
    let wa := (splitSp a).dedup
    let wb := (splitSp b).dedup
    let interCard := (wa.filter fun w => wb.any fun v => v = w).length
    let wordScore : ℚ := (interCard : ℚ) / ((Nat.max wa.length wb.length : ℕ) : ℚ)
    let shorterSet := if wa.length ≤ wb.length then wa else wb
    let longerSet := if wa.length ≤ wb.length then wb else wa
    if shorterSet.all (fun w => longerSet.any fun v => v = w) then
      maxQ wordScore ((7 : ℚ)/10)
    else wordScore

/-! ### Quota ledger (`decrementFreeGenerations` in `src/unnamed/part_008`,
    database.js lines 664-711) -/

/-- A row of the `profiles` table (the columns the ledger reads). -/
structure Profile where
  is_premium : Bool
  free_generations_remaining : Int
deriving DecidableEq, Repr

/-- Outcome of the two store calls `decrementFreeGenerations` performs. -/
structure DebitEnv where
  selectFails : Bool
  updateFails : Bool
deriving DecidableEq, Repr

/-- The body of the `try` block of `decrementFreeGenerations`: select the
    profile (may throw), return unchanged for premium users or an exhausted
    counter, otherwise update to `max(remaining - 1, 0)` (may throw). -/
def decrementCore (p : Profile) (e : DebitEnv) : Except Unit Profile :=
  if e.selectFails then .error ()
  else if p.is_premium then .ok p
  else if p.free_generations_remaining ≤ 0 then .ok p
  else
    let newValue := max (p.free_generations_remaining - 1) 0
    if e.updateFails then .error ()
    else .ok { p with free_generations_remaining := newValue }

/-- The function `decrementFreeGenerations`: the surrounding `catch` logs and returns, so
    a thrown store error leaves the stored profile unchanged and never
    propagates to the caller (the function is total). -/
def decrementFreeGenerations (p : Profile) (e : DebitEnv) : Profile :=
  match decrementCore p e with
  | .ok q => q
  | .error _ => p

/-! ### Cost gate (`checkAndIncrementCost` and the `costProtection`
    middleware in `src/unnamed/part_007`, lines 216-296 and 351-383) -/

/-- The limits of `COST_CONFIG`. -/
structure CostConfig where
  dailyGlobalLimit : Nat
  dailyUserLimit : Nat
  hourlyGlobalLimit : Nat
deriving DecidableEq, Repr

/-- Cost-gate denial codes. -/
inductive CostReason
  | HOURLY_LIMIT_REACHED
  | DAILY_LIMIT_REACHED
  | USER_DAILY_LIMIT_REACHED
deriving DecidableEq, Repr

/-- Outcomes of the durable-store calls made by one `checkAndIncrementCost`
    run: the three cached counter reads and the three atomic increments. -/
structure CostEnv where
  readDaily : Except Unit Nat
  readHourly : Except Unit Nat
  readUser : Except Unit Nat
  incDaily : Except Unit Nat
  incHourly : Except Unit Nat
  incUser : Except Unit Nat
deriving Repr

/-- The decision returned to the middleware. -/
structure CostDecision where
  allowed : Bool
  reason : Option CostReason
deriving DecidableEq, Repr

/-- The `try` block of `checkAndIncrementCost`: read the three counters
    (any read error rejects the whole step), deny hourly-global first, then
    daily-global, then daily-user, otherwise run the three increments (any
    increment error rejects) and allow. -/
def checkAndIncrementCostRun (cfg : CostConfig) (env : CostEnv) :
    Except Unit CostDecision :=
  match env.readDaily, env.readHourly, env.readUser with
  | .ok dailyGlobalCount, .ok hourlyGlobalCount, .ok dailyUserCount =>
    if cfg.hourlyGlobalLimit ≤ hourlyGlobalCount then
      .ok ⟨false, some .HOURLY_LIMIT_REACHED⟩
    else if cfg.dailyGlobalLimit ≤ dailyGlobalCount then
      .ok ⟨false, some .DAILY_LIMIT_REACHED⟩
    else if cfg.dailyUserLimit ≤ dailyUserCount then
      .ok ⟨false, some .USER_DAILY_LIMIT_REACHED⟩
    else
      match env.incDaily, env.incHourly, env.incUser with
      | .ok _, .ok _, .ok _ => .ok ⟨true, none⟩
      | _, _, _ => .error ()
  | _, _, _ => .error ()

/-- The function `checkAndIncrementCost`: the surrounding `catch` turns any store error
    into `{allowed: true}` (fail-open). -/
def checkAndIncrementCost (cfg : CostConfig) (env : CostEnv) : CostDecision :=
  match checkAndIncrementCostRun cfg env with
  | .ok d => d
  | .error _ => ⟨true, none⟩

/-- What the `costProtection` middleware does with the decision. -/
inductive MwStep
  | proceed
  | deny (status : Nat) (reason : Option CostReason)
deriving DecidableEq, Repr

/-- The `costProtection` middleware: 429 with the decision's reason when not
    allowed, otherwise pass the request on. -/
def costProtection (cfg : CostConfig) (env : CostEnv) : MwStep :=
  let result := checkAndIncrementCost cfg env
  if result.allowed then .proceed else .deny 429 result.reason

/-- Whether some adjacent character pair of the list satisfies `p`. -/
def hasAdjPair (p : Char → Char → Bool) : List Char → Bool
  | a :: b :: rest => p a b || hasAdjPair p (b :: rest)
  | _ => false

/-- Two consecutive spaces. -/
def spacePair (a b : Char) : Bool :=
  a = ' ' && b = ' '

/-- Two consecutive whitespace characters. -/
def wsPair (a b : Char) : Bool :=
  isJsWs a && isJsWs b

/-- A `#` immediately followed by a word character (a match of `/#\w+/`). -/
def hashtagPair (a b : Char) : Bool :=
  a = '#' && isWordC b

/-- Whether the list contains two consecutive spaces. -/
def hasDoubleSpace (l : List Char) : Bool :=
  hasAdjPair spacePair l

/-- Whether the list contains a hashtag substring. -/
def hasHashtag (l : List Char) : Bool :=
  hasAdjPair hashtagPair l

/-! ### Rate gate (`checkLimit` in `src/backend/middlewares/rateLimiter.js`
    lines 139-214 and the IP-scope denial mapping of `rateLimiter`,
    lines 266-279) -/

/-- One scope of `DEFAULT_CONFIG`. -/
structure RLConfig where
  maxRequests : Nat
  windowMs : Nat
  blockDurationMs : Nat
deriving DecidableEq, Repr

/-- An in-memory store entry of the limiter. -/
structure RLEntry where
  count : Nat
  resetTime : Nat
  blocked : Bool
  blockUntil : Nat
deriving DecidableEq, Repr

/-- The record `checkLimit` returns. -/
structure RLCheck where
  allowed : Bool
  remaining : Nat
  resetIn : Nat
  blocked : Bool
deriving DecidableEq, Repr

/-- JS `Math.ceil(ms / 1000)` on naturals. -/
def ceilSec (ms : Nat) : Nat :=
  (ms + 999) / 1000

/-- Result of one `checkLimit` call: the returned record, the new in-memory
    entry, and the `blocked_until` value upserted into the durable store by
    `persistBlock`, if any. -/
structure RLOutcome where
  res : RLCheck
  entry : Option RLEntry
  persist : Option Nat
deriving DecidableEq, Repr

/-- The query `checkBlockedInDb`: the durable row matches only while
    `blocked_until > now`. -/
def checkBlockedInDb (dbRow : Option Nat) (now : Nat) : Option Nat :=
  match dbRow with
  | some bu => if now < bu then some bu else none
  | none => none

/-- Steps 2-5 of `checkLimit`, after the in-memory block test: mirror a
    durable block into memory and deny; reset an absent or expired window to
    count 1 and allow; increment, and either block (memory and durable store)
    when the count exceeds the limit, or allow. -/
def checkLimitTail (entry0 : Option RLEntry) (dbBlock : Option Nat) (now : Nat)
    (cfg : RLConfig) : RLOutcome :=
  match dbBlock with
  | some bu =>
    let base := entry0.getD ⟨0, now + cfg.windowMs, false, 0⟩
    ⟨⟨false, 0, ceilSec (bu - now), true⟩,
     some { base with blocked := true, blockUntil := bu }, none⟩
  | none =>
    match entry0 with
    | none =>
      ⟨⟨true, cfg.maxRequests - 1, ceilSec cfg.windowMs, false⟩,
       some ⟨1, now + cfg.windowMs, false, 0⟩, none⟩
    | some e =>
      if e.resetTime < now then
        ⟨⟨true, cfg.maxRequests - 1, ceilSec cfg.windowMs, false⟩,
         some ⟨1, now + cfg.windowMs, false, 0⟩, none⟩
      else
        let c := e.count + 1
        if cfg.maxRequests < c then
          ⟨⟨false, 0, ceilSec cfg.blockDurationMs, true⟩,
           some { e with count := c, blocked := true,
                         blockUntil := now + cfg.blockDurationMs },
           some (now + cfg.blockDurationMs)⟩
        else
          ⟨⟨true, cfg.maxRequests - c, ceilSec (e.resetTime - now), false⟩,
           some { e with count := c }, none⟩

/-- The function `checkLimit`: deny immediately on a live in-memory block, otherwise run
    the remaining steps. -/
def checkLimit (entry0 : Option RLEntry) (dbBlock : Option Nat) (now : Nat)
    (cfg : RLConfig) : RLOutcome :=
  match entry0 with
  | some e =>
    if e.blocked = true ∧ now < e.blockUntil then
      ⟨⟨false, 0, ceilSec (e.blockUntil - now), true⟩, some e, none⟩
    else checkLimitTail (some e) dbBlock now cfg
  | none => checkLimitTail none dbBlock now cfg

/-- The state the limiter keeps for one key: the in-memory entry and the
    durable `blocked_until` row. -/
structure RLKeyState where
  entry : Option RLEntry
  dbBlockedUntil : Option Nat
deriving DecidableEq, Repr

/-- One request against one key: query the durable store, run `checkLimit`,
    and apply the `persistBlock` write-back. -/
def rlStep (cfg : RLConfig) (st : RLKeyState) (now : Nat) : RLCheck × RLKeyState :=
  let o := checkLimit st.entry (checkBlockedInDb st.dbBlockedUntil now) now cfg
  (o.res, ⟨o.entry, match o.persist with | some t => some t | none => st.dbBlockedUntil⟩)

/-- The IP scope of the standard profile: 20 requests per sliding minute,
    10-minute block. -/
def ipConfig : RLConfig :=
  ⟨20, 60000, 600000⟩

/-- Error codes of the responses modelled in this file. -/
inductive ErrCode
  | ANALYSIS_IN_PROGRESS
  | PREMIUM_REQUIRED
  | NOT_RECIPE
  | SERVER_ERROR
  | IP_BLOCKED
  | IP_RATE_LIMITED
deriving DecidableEq, Repr

/-- A 429 denial with its `Retry-After` value. -/
structure RLDenial where
  status : Nat
  code : ErrCode
  retryAfter : Nat
deriving DecidableEq, Repr

/-- The IP-scope part of the `rateLimiter` middleware (lines 266-279): on a
    disallowed check, respond 429 with `IP_BLOCKED` when the check reports a
    block and `IP_RATE_LIMITED` otherwise, with `Retry-After = resetIn`. -/
def ipScopeResponse (r : RLCheck) : Option RLDenial :=
  if r.allowed then none
  else some ⟨429, if r.blocked then .IP_BLOCKED else .IP_RATE_LIMITED, r.resetIn⟩

/-- The limiter state for one IP after `k` requests issued at times
    `times 0, …, times (k-1)`. -/
def ipRun (times : Nat → Nat) : Nat → RLKeyState
  | 0 => ⟨none, none⟩
  | k + 1 => (rlStep ipConfig (ipRun times k) (times k)).2

/-- The check returned to request `k` (0-based) of that sequence. -/
def ipRes (times : Nat → Nat) (k : Nat) : RLCheck :=
  (rlStep ipConfig (ipRun times k) (times k)).1

/-! ### The `/analyze` admission controller (`src/backend/server.js`
    lines 83-325), modelled from the single-flight conflict check onwards
    (authentication, rate and cost middlewares and input validation are
    modelled separately).  The outcomes of the external calls
    (`checkUserCanGenerateRecipe`, `duplicateRecipeForUser`,
    `analyzeRecipeFromVideo`, `saveRecipeToDatabase`) are provided by an
    environment record; the `recipes` table is threaded explicitly. -/

abbrev UserId := Nat

abbrev Url := List Char

/-- A row of the `recipes` table (the columns the admission controller
    reads: identity, owner, source URL and recency). -/
structure Recipe where
  id : Nat
  user_id : UserId
  source_url : Option Url
  created_at : Nat
deriving DecidableEq, Repr

/-- The function `normalizeTikTokUrl`: `url.split('?')[0]`. -/
def normalizeTikTokUrl (url : Url) : Url :=
  url.takeWhile fun c => c ≠ '?'

/-- Keep the newer of a row and a candidate (ties keep the earlier row). -/
def pickNewer (r : Recipe) : Option Recipe → Option Recipe
  | none => some r
  | some b => if r.created_at < b.created_at then some b else some r

/-- The query `order by created_at desc limit 1` over a filtered row list: the first
    row of maximal `created_at`. -/
def mostRecent : List Recipe → Option Recipe
  | [] => none
  | r :: rest => pickNewer r (mostRecent rest)

/-- The lookup `getExistingRecipeByUrl` (database.js lines 552-580): the most recent
    recipe of `userId` whose `source_url` matches `LIKE normalizedUrl%`,
    i.e. begins with the normalized URL. -/
def getExistingRecipeByUrl (db : List Recipe) (userId : UserId) (sourceUrl : Url) :
    Option Recipe :=
  let normalizedUrl := normalizeTikTokUrl sourceUrl
  mostRecent (db.filter fun r =>
    r.user_id == userId &&
      match r.source_url with
      | some s => isPrefixL normalizedUrl s
      | none => false)

/-- Modelled from the spec: `findRecipeByUrlGlobal` is imported by
    `server.js` but its definition is not under `src/`.  Spec §4.5 step 3
    describes it as the most recent recipe of any owner whose `source_url`
    begins with the normalized URL. -/
def findRecipeByUrlGlobal (db : List Recipe) (sourceUrl : Url) : Option Recipe :=
  let normalizedUrl := normalizeTikTokUrl sourceUrl
  mostRecent (db.filter fun r =>
    match r.source_url with
    | some s => isPrefixL normalizedUrl s
    | none => false)

/-- Modelled from the spec: `duplicateRecipeForUser` is imported by
    `server.js` but its definition is not under `src/`.  Spec §4.9 describes
    the clone as a copy of the recipe row with a new id and the new owner,
    preserving `source_url` (children are copied alongside; only the
    recipe-row columns used by the admission controller are modelled). -/
def duplicateRecipeForUser (orig : Recipe) (newUser : UserId) (newId : Nat)
    (now : Nat) : Recipe :=
  ⟨newId, newUser, orig.source_url, now⟩

/-- The record `checkUserCanGenerateRecipe` resolves to. -/
structure CanGen where
  canGenerate : Bool
  isPremium : Bool
  freeGenerationsRemaining : Int
deriving DecidableEq, Repr

/-- How `analyzeRecipeFromVideo` fails: a `NOT_RECIPE` verdict or any other
    pipeline error. -/
inductive PipelineErr
  | notRecipe
  | other
deriving DecidableEq, Repr

/-- Outcomes of the external calls one `/analyze` request makes, in program
    order: the rights check inside the duplication `try`, the clone, the
    rights check of the main `try`, the pipeline, and the save; `freshId` and
    `now` are the id and `created_at` the store assigns to a row created by
    this request. -/
structure AnalyzeEnv where
  canGenDup : Except Unit CanGen
  dupFails : Bool
  canGenMain : Except Unit CanGen
  pipeline : Except PipelineErr Unit
  saveFails : Bool
  freshId : Nat
  now : Nat
deriving Repr

/-- Observable effect events of the handler, in execution order. -/
inductive Ev
  | conflictCheck
  | ownerLookupEv
  | globalLookupEv
  | acquireEv
  | releaseEv
  | canGenEv
  | cloneEv
  | debitEv
  | pipelineEv
  | saveEv
deriving DecidableEq, Repr

/-- The JSON response of the handler (the fields the claims mention). -/
structure Resp where
  status : Nat
  error : Option ErrCode
  recipeId : Option Nat
  alreadyExists : Bool
  duplicated : Bool
deriving DecidableEq, Repr

/-- The `activeAnalyses` map (`userId → normalizedUrl`). -/
abbrev Locks := List (UserId × Url)

/-- The test `activeAnalyses.has(userId)`. -/
def hasKey (locks : Locks) (u : UserId) : Bool :=
  locks.any fun p => p.1 == u

/-- The update `activeAnalyses.set(userId, v)`. -/
def setKey (locks : Locks) (u : UserId) (v : Url) : Locks :=
  (u, v) :: locks.filter fun p => !(p.1 == u)

/-- The removal `activeAnalyses.delete(userId)`. -/
def delKey (locks : Locks) (u : UserId) : Locks :=
  locks.filter fun p => !(p.1 == u)

/-- What a request leaves behind: the response, the `recipes` table, the
    lock map, and the event trace. -/
structure Outcome where
  resp : Resp
  db : List Recipe
  locks : Locks
  events : List Ev
deriving DecidableEq, Repr

/-- A 200 response carrying a recipe id. -/
def respOk (rid : Nat) (already dup : Bool) : Resp :=
  ⟨200, none, some rid, already, dup⟩

/-- An error response. -/
def respErr (status : Nat) (e : ErrCode) : Resp :=
  ⟨status, some e, none, false, false⟩

/-- Lines 195-324 of `server.js`: record the lock, check generation rights
    (denial deletes the lock and answers 403), run the pipeline
    (`NOT_RECIPE` deletes the lock and answers 400, other errors answer 500),
    persist, debit unless premium, answer 200; the `finally` block deletes
    the lock whenever it is still present. -/
def freshAnalysis (env : AnalyzeEnv) (locks : Locks) (db : List Recipe)
    (u : UserId) (url : Url) : Outcome :=
  let locks1 := setKey locks u (normalizeTikTokUrl url)
  match env.canGenMain with
  | .error _ =>
    ⟨respErr 500 .SERVER_ERROR, db, delKey locks1 u,
     [.acquireEv, .canGenEv, .releaseEv]⟩
  | .ok cg =>
    if cg.canGenerate = false then
      ⟨respErr 403 .PREMIUM_REQUIRED, db, delKey locks1 u,
       [.acquireEv, .canGenEv, .releaseEv]⟩
    else
      match env.pipeline with
      | .error .notRecipe =>
        ⟨respErr 400 .NOT_RECIPE, db, delKey locks1 u,
         [.acquireEv, .canGenEv, .pipelineEv, .releaseEv]⟩
      | .error .other =>
        ⟨respErr 500 .SERVER_ERROR, db, delKey locks1 u,
         [.acquireEv, .canGenEv, .pipelineEv, .releaseEv]⟩
      | .ok _ =>
        if env.saveFails then
          ⟨respErr 500 .SERVER_ERROR, db, delKey locks1 u,
           [.acquireEv, .canGenEv, .pipelineEv, .saveEv, .releaseEv]⟩
        else
          let newRecipe : Recipe := ⟨env.freshId, u, some url, env.now⟩
          ⟨respOk env.freshId false false, db ++ [newRecipe], delKey locks1 u,
           [.acquireEv, .canGenEv, .pipelineEv, .saveEv] ++
             (if cg.isPremium then [] else [.debitEv]) ++ [.releaseEv]⟩

/-- Prepend the events of the code that ran before an outcome. -/
def withEvents (pre : List Ev) (o : Outcome) : Outcome :=
  { o with events := pre ++ o.events }

/-- The `/analyze` handler after validation (lines 111-325 of `server.js`):
    deny 429 while the user has any active analysis; answer an owner
    duplicate directly; on a global duplicate check rights (403 on denial),
    clone, debit unless premium, and answer with `alreadyExists` and
    `duplicated` — an error thrown by the rights check or the clone is caught
    and the request falls through to the fresh analysis, which is also the
    path taken when no duplicate exists. -/
def analyzeHandler (env : AnalyzeEnv) (locks : Locks) (db : List Recipe)
    (u : UserId) (url : Url) : Outcome :=
  if hasKey locks u then
    ⟨respErr 429 .ANALYSIS_IN_PROGRESS, db, locks, [.conflictCheck]⟩
  else
    match getExistingRecipeByUrl db u url with
    | some r =>
      ⟨respOk r.id true false, db, locks, [.conflictCheck, .ownerLookupEv]⟩
    | none =>
      match findRecipeByUrlGlobal db url with
      | none =>
        withEvents [.conflictCheck, .ownerLookupEv, .globalLookupEv]
          (freshAnalysis env locks db u url)
      | some globalRecipe =>
        match env.canGenDup with
        | .error _ =>
          withEvents [.conflictCheck, .ownerLookupEv, .globalLookupEv, .canGenEv]
            (freshAnalysis env locks db u url)
        | .ok cg =>
          if cg.canGenerate = false then
            ⟨respErr 403 .PREMIUM_REQUIRED, db, locks,
             [.conflictCheck, .ownerLookupEv, .globalLookupEv, .canGenEv]⟩
          else if env.dupFails then
            withEvents [.conflictCheck, .ownerLookupEv, .globalLookupEv,
                .canGenEv, .cloneEv]
              (freshAnalysis env locks db u url)
          else
            let cloned := duplicateRecipeForUser globalRecipe u env.freshId env.now
            ⟨respOk cloned.id true true, db ++ [cloned], locks,
             [.conflictCheck, .ownerLookupEv, .globalLookupEv, .canGenEv,
               .cloneEv] ++ (if cg.isPremium then [] else [.debitEv])⟩

/-! ### Persistence layer (`saveRecipeToDatabase`, `findMatchingFoodItem`
    and `normalizeName` in `src/unnamed/part_008`, database.js lines 35-42,
    83-132 and 336-497) -/

/-- Accent folding on the precomposed Latin characters of the food
    vocabulary: models the NFD decomposition followed by deletion of the
    U+0300 to U+036F combining marks performed by `normalizeName`, which
    turns a precomposed accented letter into its base letter.  Characters
    outside the modelled range are unchanged. -/
def foldAccent (c : Char) : Char :=
  if c = 'à' ∨ c = 'á' ∨ c = 'â' ∨ c = 'ä' ∨ c = 'ã' then 'a'
  else if c = 'ç' then 'c'
  else if c = 'é' ∨ c = 'è' ∨ c = 'ê' ∨ c = 'ë' then 'e'
  else if c = 'î' ∨ c = 'ï' ∨ c = 'í' ∨ c = 'ì' then 'i'
  else if c = 'ô' ∨ c = 'ö' ∨ c = 'ó' ∨ c = 'ò' ∨ c = 'õ' then 'o'
  else if c = 'ù' ∨ c = 'û' ∨ c = 'ü' ∨ c = 'ú' then 'u'
  else if c = 'ñ' then 'n'
  else c

/-- The function `normalizeName`: lower-case, strip accents, collapse whitespace runs to
    single spaces, trim. -/
def normalizeName (name : List Char) : List Char :=
  trimWs (collapseWs (name.map fun c => foldAccent c.toLower))

/-- A row of the read-only `food_items` master table. -/
structure FoodItem where
  id : Nat
  name : List Char
deriving DecidableEq, Repr

/-- The first item of maximal score, as produced by sorting score-descending
    and taking the head (`scoredItems.sort(...)[0]`). -/
def bestScored : List (FoodItem × ℚ) → Option (FoodItem × ℚ)
  | [] => none
  | x :: rest =>
    match bestScored rest with
    | none => some x
    | some b => if x.2 < b.2 then some b else some x

/-- The matcher `findMatchingFoodItem`: fetch all food items (any error yields no link),
    score each against the normalized raw name, and accept the best match
    when its score is at least `0.5`. -/
def findMatchingFoodItem (fetch : Except Unit (List FoodItem))
    (rawName : List Char) : Option FoodItem :=
  match fetch with
  | .error _ => none
  | .ok items =>
    match bestScored (items.map fun it =>
        (it, similarityScore (normalizeName rawName) (normalizeName it.name))) with
    | some best => if (1 : ℚ)/2 ≤ best.2 then some best.1 else none
    | none => none

/-- One ingredient of the analyzed recipe. -/
structure IngredientData where
  name : List Char
  quantity : Option ℚ
  unit : Option (List Char)
deriving DecidableEq, Repr

/-- One step of the analyzed recipe. -/
structure StepData where
  order : Nat
  text : List Char
  duration : Option Nat
  temperature : Option Nat
  ingredients_used : List (List Char)
deriving DecidableEq, Repr

/-- A row of the `ingredients` table. -/
structure IngredientRow where
  recipe_id : Nat
  name : List Char
  quantity : Option ℚ
  unit : Option (List Char)
  food_item_id : Option Nat
deriving DecidableEq, Repr

/-- A row of the `steps` table. -/
structure StepRow where
  recipe_id : Nat
  order : Nat
  text : List Char
  duration : Option Nat
  temperature : Option Nat
  ingredients_used : List (List Char)
deriving DecidableEq, Repr

/-- The three tables `saveRecipeToDatabase` writes. -/
structure DbTables where
  recipes : List Recipe
  ingredientRows : List IngredientRow
  stepRows : List StepRow
deriving DecidableEq, Repr

/-- Outcomes of the store calls one `saveRecipeToDatabase` run makes: the
    thumbnail upload (already reduced to its resulting public URL, `none` on
    any failure), the `food_items` fetch, and whether each of the three
    inserts errors. -/
structure SaveEnv where
  thumbnailUpload : Option (List Char)
  foodItemsFetch : Except Unit (List FoodItem)
  recipeInsertFails : Bool
  ingredientsInsertFails : Bool
  stepsInsertFails : Bool
deriving Repr

/-- The recipe fields `saveRecipeToDatabase` receives (projected to the
    columns the claims mention). -/
structure SaveInput where
  userId : UserId
  sourceUrl : Option Url
  ingredients : List IngredientData
  steps : List StepData
deriving DecidableEq, Repr

/-- The writer `saveRecipeToDatabase`: upload the thumbnail (failure only nulls the
    image), insert the recipe row (an error here throws), then insert the
    ingredient batch (with fuzzy `food_item_id` links) and the step batch —
    an error in either batch is logged without throwing and without rolling
    the recipe row back; the created recipe row is returned. -/
def saveRecipeToDatabase (env : SaveEnv) (inp : SaveInput) (newId : Nat)
    (now : Nat) (db : DbTables) : Except Unit (Recipe × DbTables) :=
  if env.recipeInsertFails then .error ()
  else
    let recipe : Recipe := ⟨newId, inp.userId, inp.sourceUrl, now⟩
    let db1 := { db with recipes := db.recipes ++ [recipe] }
    let db2 :=
      if inp.ingredients ≠ [] ∧ env.ingredientsInsertFails = false then
        { db1 with ingredientRows := db1.ingredientRows ++
            inp.ingredients.map fun ing =>
              ⟨recipe.id, ing.name, ing.quantity, ing.unit,
               (findMatchingFoodItem env.foodItemsFetch ing.name).map FoodItem.id⟩ }
      else db1
    let db3 :=
      if inp.steps ≠ [] ∧ env.stepsInsertFails = false then
        { db2 with stepRows := db2.stepRows ++
            inp.steps.map fun st =>
              ⟨recipe.id, st.order, st.text, st.duration, st.temperature,
               st.ingredients_used⟩ }
      else db2
    .ok (recipe, db3)

/-! ## Theorems -/

/-! ### C5: quota ledger invariants -/

/-- One debit cannot make the counter negative. -/
theorem decrement_nonneg {p : Profile} {e : DebitEnv}
    (h : 0 ≤ p.free_generations_remaining) :
    0 ≤ (decrementFreeGenerations p e).free_generations_remaining := by
  unfold decrementFreeGenerations decrementCore
  split_ifs <;> simp_all

/-- A debit never changes the premium flag. -/
theorem decrement_premium_flag (p : Profile) (e : DebitEnv) :
    (decrementFreeGenerations p e).is_premium = p.is_premium := by
  unfold decrementFreeGenerations decrementCore
  split_ifs <;> rfl

/-- A debit of a premium user is a no-op. -/
theorem decrement_premium {p : Profile} {e : DebitEnv} (h : p.is_premium = true) :
    decrementFreeGenerations p e = p := by
  unfold decrementFreeGenerations decrementCore
  split_ifs <;> simp_all

/-- The counter stays non-negative over any debit sequence. -/
theorem foldl_decrement_nonneg (es : List DebitEnv) :
    ∀ p : Profile, 0 ≤ p.free_generations_remaining →
      0 ≤ (es.foldl decrementFreeGenerations p).free_generations_remaining := by
  induction es with
  | nil => exact fun _ h => h
  | cons e es ih =>
    intro p h
    simp only [List.foldl_cons]
    exact ih _ (decrement_nonneg h)

/-- A premium profile is unchanged by any debit sequence. -/
theorem foldl_decrement_premium (es : List DebitEnv) :
    ∀ p : Profile, p.is_premium = true →
      es.foldl decrementFreeGenerations p = p := by
  induction es with
  | nil => exact fun _ _ => rfl
  | cons e es ih =>
    intro p hp
    simp only [List.foldl_cons, decrement_premium hp]
    exact ih _ hp

/-- Claim C5: over every sequence of debit operations (each store call
    allowed to fail), `free_generations_remaining` never becomes negative, a
    premium user's profile is never changed, and a debit with the counter
    already at 0 is a no-op.  The embedded `decrementFreeGenerations` is
    total (its `catch` absorbs every store error), which models that debit
    never raises on failure. -/
theorem C5_debit_invariants (p : Profile) (es : List DebitEnv)
    (h : 0 ≤ p.free_generations_remaining) :
    0 ≤ (es.foldl decrementFreeGenerations p).free_generations_remaining ∧
    (p.is_premium = true → es.foldl decrementFreeGenerations p = p) ∧
    (∀ e, p.free_generations_remaining = 0 → decrementFreeGenerations p e = p) := by
  refine ⟨foldl_decrement_nonneg es p h, foldl_decrement_premium es p, ?_⟩
  intro e hz
  unfold decrementFreeGenerations decrementCore
  split_ifs <;> simp_all

/-- Witness for C5 at a concrete non-premium profile with 2 free
    generations and a sequence of five debits with assorted store failures. -/
theorem C5_debit_invariants_witness :
    0 ≤ (([⟨false, false⟩, ⟨true, false⟩, ⟨false, true⟩, ⟨false, false⟩,
          ⟨false, false⟩] : List DebitEnv).foldl decrementFreeGenerations
            ⟨false, 2⟩).free_generations_remaining ∧
    ((⟨false, 2⟩ : Profile).is_premium = true →
      ([⟨false, false⟩, ⟨true, false⟩, ⟨false, true⟩, ⟨false, false⟩,
        ⟨false, false⟩] : List DebitEnv).foldl decrementFreeGenerations
          ⟨false, 2⟩ = ⟨false, 2⟩) ∧
    (∀ e, (⟨false, 2⟩ : Profile).free_generations_remaining = 0 →
      decrementFreeGenerations ⟨false, 2⟩ e = ⟨false, 2⟩) :=
  C5_debit_invariants ⟨false, 2⟩
    [⟨false, false⟩, ⟨true, false⟩, ⟨false, true⟩, ⟨false, false⟩, ⟨false, false⟩]
    (by decide)

/-! ### C8: cost gate fails open on store errors -/

/-- Claim C8: if a counter read raises, or all three limits pass and an
    increment raises, `checkAndIncrementCost` fails open — it reports
    `allowed` with no denial reason, and the `costProtection` middleware
    passes the request on instead of denying. -/
theorem C8_cost_gate_fails_open (cfg : CostConfig) (env : CostEnv) :
    ((env.readDaily = .error () ∨ env.readHourly = .error () ∨
        env.readUser = .error ()) →
      checkAndIncrementCost cfg env = ⟨true, none⟩ ∧
      costProtection cfg env = .proceed) ∧
    (∀ d h u, env.readDaily = .ok d → env.readHourly = .ok h →
      env.readUser = .ok u → h < cfg.hourlyGlobalLimit →
      d < cfg.dailyGlobalLimit → u < cfg.dailyUserLimit →
      (env.incDaily = .error () ∨ env.incHourly = .error () ∨
        env.incUser = .error ()) →
      checkAndIncrementCost cfg env = ⟨true, none⟩ ∧
      costProtection cfg env = .proceed) := by
  constructor
  · intro hr
    have hrun : checkAndIncrementCostRun cfg env = .error () := by
      rcases hr with h | h | h <;>
        · rcases hd : env.readDaily with e | d <;>
            rcases hh : env.readHourly with e | hcount <;>
            rcases hu : env.readUser with e | ucount <;>
          simp_all [checkAndIncrementCostRun, Except.bind]
    constructor
    · simp [checkAndIncrementCost, hrun]
    · simp [costProtection, checkAndIncrementCost, hrun]
  · intro d h u hd hh hu hlim1 hlim2 hlim3 hinc
    have hrun : checkAndIncrementCostRun cfg env = .error () := by
      rcases hinc with hi | hi | hi <;>
        · rcases h1 : env.incDaily with e | n1 <;>
            rcases h2 : env.incHourly with e | n2 <;>
            rcases h3 : env.incUser with e | n3 <;>
          simp_all [checkAndIncrementCostRun, Except.bind, Nat.not_le.mpr hlim1,
            Nat.not_le.mpr hlim2, Nat.not_le.mpr hlim3]
    constructor
    · simp [checkAndIncrementCost, hrun]
    · simp [costProtection, checkAndIncrementCost, hrun]

/-- Witness for C8: a failing daily read, and separately a failing user
    increment below all limits, both admit the request. -/
theorem C8_cost_gate_fails_open_witness :
    (checkAndIncrementCost ⟨500, 50, 100⟩
        ⟨.error (), .ok 0, .ok 0, .ok 1, .ok 1, .ok 1⟩ = ⟨true, none⟩ ∧
      costProtection ⟨500, 50, 100⟩
        ⟨.error (), .ok 0, .ok 0, .ok 1, .ok 1, .ok 1⟩ = .proceed) ∧
    (checkAndIncrementCost ⟨500, 50, 100⟩
        ⟨.ok 3, .ok 4, .ok 5, .ok 4, .ok 5, .error ()⟩ = ⟨true, none⟩ ∧
      costProtection ⟨500, 50, 100⟩
        ⟨.ok 3, .ok 4, .ok 5, .ok 4, .ok 5, .error ()⟩ = .proceed) :=
  ⟨(C8_cost_gate_fails_open ⟨500, 50, 100⟩
      ⟨.error (), .ok 0, .ok 0, .ok 1, .ok 1, .ok 1⟩).1 (Or.inl rfl),
   (C8_cost_gate_fails_open ⟨500, 50, 100⟩
      ⟨.ok 3, .ok 4, .ok 5, .ok 4, .ok 5, .error ()⟩).2 3 4 5 rfl rfl rfl
     (by decide) (by decide) (by decide) (Or.inr (Or.inr rfl))⟩

/-! ### C9: child-row insert failures do not roll back the recipe -/

/-- Claim C9: when the recipe-row insert succeeds, a failure of the batched
    ingredient insert or of the batched step insert does not make
    `saveRecipeToDatabase` throw and does not roll the recipe row back — the
    function still returns the created recipe row (so the admission
    controller, whose `catch` only sees thrown errors, treats the recipe as
    created), and the row is retained in the `recipes` table. -/
theorem C9_child_failures_keep_recipe (env : SaveEnv) (inp : SaveInput)
    (newId : Nat) (now : Nat) (db : DbTables)
    (hrec : env.recipeInsertFails = false)
    (hchild : env.ingredientsInsertFails = true ∨ env.stepsInsertFails = true) :
    ∃ dbOut, saveRecipeToDatabase env inp newId now db =
        .ok (⟨newId, inp.userId, inp.sourceUrl, now⟩, dbOut) ∧
      dbOut.recipes = db.recipes ++ [⟨newId, inp.userId, inp.sourceUrl, now⟩] := by
  unfold saveRecipeToDatabase
  rw [if_neg (by simp [hrec])]
  refine ⟨_, rfl, ?_⟩
  split_ifs <;> rfl

/-- Witness for C9: both child batches fail on a two-ingredient, one-step
    recipe; the recipe row is still created and returned. -/
theorem C9_child_failures_keep_recipe_witness :
    ∃ dbOut,
      saveRecipeToDatabase ⟨none, .ok [], false, true, true⟩
          ⟨1, some ['t'], [⟨['a'], none, none⟩, ⟨['b'], none, none⟩],
            [⟨1, ['s'], none, none, []⟩]⟩ 7 5 ⟨[], [], []⟩ =
        .ok (⟨7, 1, some ['t'], 5⟩, dbOut) ∧
      dbOut.recipes = ([] : List Recipe) ++ [⟨7, 1, some ['t'], 5⟩] :=
  C9_child_failures_keep_recipe ⟨none, .ok [], false, true, true⟩
    ⟨1, some ['t'], [⟨['a'], none, none⟩, ⟨['b'], none, none⟩],
      [⟨1, ['s'], none, none, []⟩]⟩ 7 5 ⟨[], [], []⟩ rfl (Or.inl rfl)

/-! ### C2: the single-flight conflict check is keyed on the user alone -/

/-- Counterexample to claim C2: user 1 holds the lock for normalized URL
    `"a"`; a request by the same user for the distinct normalized URL `"b"`
    is denied with `ANALYSIS_IN_PROGRESS` instead of being admitted. -/
theorem C2_counterexample :
    (analyzeHandler ⟨.ok ⟨true, false, 3⟩, false, .ok ⟨true, false, 3⟩,
          .ok (), false, 5, 9⟩ [(1, ['a'])] [] 1 ['b']).resp =
        respErr 429 .ANALYSIS_IN_PROGRESS ∧
      normalizeTikTokUrl ['b'] ≠ ['a'] := by
  decide

/-- Claim C2 amended: the conflict check of the admission controller is
    keyed on the user alone (`activeAnalyses.has(userId)`), so while a user
    has any active analysis, a second request by the same user is denied
    with `ANALYSIS_IN_PROGRESS` (HTTP 429) for every requested URL, also for
    a distinct normalized URL; the request changes neither the store nor the
    lock map. -/
theorem C2_amended_per_user_denial (env : AnalyzeEnv) (locks : Locks)
    (db : List Recipe) (u : UserId) (url : Url)
    (h : hasKey locks u = true) :
    analyzeHandler env locks db u url =
      ⟨respErr 429 .ANALYSIS_IN_PROGRESS, db, locks, [.conflictCheck]⟩ := by
  unfold analyzeHandler
  rw [if_pos h]

/-- Witness for the amended C2: user 1 holds the lock for `"a"` and is
    denied on a request for `"b"`. -/
theorem C2_amended_per_user_denial_witness :
    analyzeHandler ⟨.ok ⟨true, false, 3⟩, false, .ok ⟨true, false, 3⟩,
        .ok (), false, 5, 9⟩ [(1, ['a'])] [] 1 ['b'] =
      ⟨respErr 429 .ANALYSIS_IN_PROGRESS, [], [(1, ['a'])], [.conflictCheck]⟩ :=
  C2_amended_per_user_denial _ [(1, ['a'])] [] 1 ['b'] (by decide)

/-! ### Shared facts about the admission controller model -/

/-- Boolean prefix test agrees with `List.IsPrefix`. -/
theorem isPrefixL_iff : ∀ a b : List Char, isPrefixL a b = true ↔ a <+: b := by
  intro a
  induction a with
  | nil => intro b; simp [isPrefixL]
  | cons x xs ih =>
    intro b
    cases b with
    | nil => simp [isPrefixL]
    | cons y ys =>
      simp only [isPrefixL, Bool.and_eq_true, decide_eq_true_eq, ih,
        List.cons_prefix_cons]

/-- The normalized URL is a prefix of the raw URL. -/
theorem isPrefixL_normalized (url : Url) :
    isPrefixL (normalizeTikTokUrl url) url = true := by
  have h : url.takeWhile (fun c => c ≠ '?') <+: url := List.takeWhile_prefix _
  exact (isPrefixL_iff _ _).mpr h

/-- Whatever `mostRecent` returns is in the list. -/
theorem mostRecent_mem : ∀ {l : List Recipe} {r : Recipe},
    mostRecent l = some r → r ∈ l := by
  intro l
  induction l with
  | nil => intro r h; simp [mostRecent] at h
  | cons x xs ih =>
    intro r h
    rw [mostRecent] at h
    rcases hm : mostRecent xs with _ | b <;> rw [hm] at h
    · rw [pickNewer] at h
      injection h with h
      exact h ▸ List.mem_cons_self x xs
    · rw [pickNewer] at h
      split_ifs at h with hc
      · injection h with h
        exact List.mem_cons_of_mem x (h ▸ ih hm)
      · injection h with h
        exact h ▸ List.mem_cons_self x xs

/-- A strictly most recent row appended at the end wins the
    `order by created_at desc limit 1` query. -/
theorem mostRecent_append {l : List Recipe} {n : Recipe}
    (h : ∀ x ∈ l, x.created_at < n.created_at) :
    mostRecent (l ++ [n]) = some n := by
  induction l with
  | nil => simp [mostRecent, pickNewer]
  | cons x xs ih =>
    have hx := h x (List.mem_cons_self x xs)
    have hxs := ih fun y hy => h y (List.mem_cons_of_mem x hy)
    rw [List.cons_append, mostRecent, hxs, pickNewer, if_pos hx]

/-- The owner lookup finds a freshly appended row owned by the requester
    whose `source_url` starts with the normalized URL, when it is strictly
    newer than everything else. -/
theorem getExisting_append {db : List Recipe} {u : UserId} {url : Url}
    {n : Recipe} (hu : n.user_id = u)
    (hs : ∃ s, n.source_url = some s ∧
      isPrefixL (normalizeTikTokUrl url) s = true)
    (hfresh : ∀ r ∈ db, r.created_at < n.created_at) :
    getExistingRecipeByUrl (db ++ [n]) u url = some n := by
  obtain ⟨s, hsome, hpre⟩ := hs
  simp only [getExistingRecipeByUrl]
  rw [List.filter_append]
  have hn : (n.user_id == u &&
      match n.source_url with
      | some s => isPrefixL (normalizeTikTokUrl url) s
      | none => false) = true := by
    simp [hu, hsome, hpre]
  rw [show List.filter (fun r : Recipe => r.user_id == u &&
      match r.source_url with
      | some s => isPrefixL (normalizeTikTokUrl url) s
      | none => false) [n] = [n] from by simp [hn]]
  exact mostRecent_append fun x hx =>
    hfresh x (List.mem_filter.mp hx).1

/-- A hit of the global lookup has a `source_url` beginning with the
    normalized URL. -/
theorem findGlobal_source {db : List Recipe} {url : Url} {g : Recipe}
    (h : findRecipeByUrlGlobal db url = some g) :
    ∃ s, g.source_url = some s ∧
      isPrefixL (normalizeTikTokUrl url) s = true := by
  simp only [findRecipeByUrlGlobal] at h
  have hmem := mostRecent_mem h
  have hp := (List.mem_filter.mp hmem).2
  rcases hsrc : g.source_url with _ | s
  · rw [hsrc] at hp; exact absurd hp (by simp)
  · rw [hsrc] at hp; exact ⟨s, rfl, hp⟩

/-- Deleting the key just set restores a lock map that did not contain it. -/
theorem delKey_setKey {locks : Locks} {u : UserId}
    (h : hasKey locks u = false) (v : Url) :
    delKey (setKey locks u v) u = locks := by
  have hall : ∀ p ∈ locks, (!(p.1 == u)) = true := by
    intro p hp
    by_contra hc
    have hpu : (p.1 == u) = true := by
      revert hc
      cases p.1 == u <;> simp
    have : hasKey locks u = true := by
      simp only [hasKey]
      exact List.any_eq_true.mpr ⟨p, hp, hpu⟩
    rw [h] at this
    cases this
  have hfix : locks.filter (fun p => !(p.1 == u)) = locks :=
    List.filter_eq_self.mpr hall
  show List.filter _ ((u, v) :: locks.filter _) = locks
  rw [hfix, List.filter_cons]
  simp [hfix]

/-- Every exit of the fresh-analysis block deletes the lock it recorded. -/
theorem freshAnalysis_locks (env : AnalyzeEnv) (locks : Locks)
    (db : List Recipe) (u : UserId) (url : Url) :
    (freshAnalysis env locks db u url).locks =
      delKey (setKey locks u (normalizeTikTokUrl url)) u := by
  rcases hm : env.canGenMain with _ | cg
  · simp [freshAnalysis, hm]
  · rcases hp : env.pipeline with e | v
    · cases e <;> simp [freshAnalysis, hm, hp] <;> split_ifs <;> rfl
    · cases v
      simp only [freshAnalysis, hm, hp]
      split_ifs <;> rfl

/-- The fresh-analysis block never reports a duplication. -/
theorem freshAnalysis_duplicated (env : AnalyzeEnv) (locks : Locks)
    (db : List Recipe) (u : UserId) (url : Url) :
    (freshAnalysis env locks db u url).resp.duplicated = false := by
  rcases hm : env.canGenMain with _ | cg
  · simp [freshAnalysis, hm, respErr]
  · rcases hp : env.pipeline with e | v
    · cases e <;> simp [freshAnalysis, hm, hp, respErr] <;> split_ifs <;> rfl
    · cases v
      simp only [freshAnalysis, hm, hp]
      split_ifs <;> rfl

/-- When the fresh analysis answers 200 it has saved a new row: the
    response carries the fresh id and the store gains exactly the new
    recipe row (owned by the requester, `source_url` the raw URL). -/
theorem freshAnalysis_of_200 {env : AnalyzeEnv} {locks : Locks}
    {db : List Recipe} {u : UserId} {url : Url}
    (h200 : (freshAnalysis env locks db u url).resp.status = 200) :
    (freshAnalysis env locks db u url).resp.recipeId = some env.freshId ∧
    (freshAnalysis env locks db u url).db =
      db ++ [⟨env.freshId, u, some url, env.now⟩] := by
  rcases hm : env.canGenMain with _ | cg
  · exact absurd h200 (by simp [freshAnalysis, hm, respErr])
  · by_cases hcan : cg.canGenerate = false
    · exact absurd h200 (by simp [freshAnalysis, hm, hcan, respErr])
    · rcases hp : env.pipeline with e | v
      · cases e <;>
          exact absurd h200 (by simp [freshAnalysis, hm, hcan, hp, respErr])
      · cases v
        by_cases hs : env.saveFails
        · exact absurd h200 (by simp [freshAnalysis, hm, hcan, hp, hs, respErr])
        · constructor <;> simp [freshAnalysis, hm, hcan, hp, hs, respOk]

/-- When the requester holds no lock, the handler leaves the lock map as it
    found it on every path. -/
theorem analyzeHandler_locks (env : AnalyzeEnv) (locks : Locks)
    (db : List Recipe) (u : UserId) (url : Url)
    (h : hasKey locks u = false) :
    (analyzeHandler env locks db u url).locks = locks := by
  unfold analyzeHandler
  rw [if_neg (by simp [h])]
  rcases howner : getExistingRecipeByUrl db u url with _ | r
  · rcases hglob : findRecipeByUrlGlobal db url with _ | g
    · show (withEvents _ _).locks = locks
      rw [withEvents, freshAnalysis_locks, delKey_setKey h]
    · rcases hcg : env.canGenDup with e | cg
      · show (withEvents _ _).locks = locks
        rw [withEvents, freshAnalysis_locks, delKey_setKey h]
      · by_cases hcan : cg.canGenerate = false
        · simp [hcan]
        · by_cases hdup : env.dupFails
          · simp only [hcan, hdup, if_neg, if_true, if_false]
            show (withEvents _ _).locks = locks
            rw [withEvents, freshAnalysis_locks, delKey_setKey h]
          · simp [hcan, hdup]
  · rfl

/-! ### C1: the lock is not acquired before the global-duplicate path -/

/-- Counterexample to claim C1: a request by user 1 for the URL `"t?x"`
    with no owner duplicate hits the global duplicate owned by user 2; the
    handler responds with `alreadyExists` and `duplicated` after cloning and
    debiting, yet the single-flight lock is never acquired (and hence never
    released) — contradicting the claimed order `tryAcquire` before the
    global lookup followed by a release before the response. -/
theorem C1_counterexample :
    Ev.acquireEv ∉ (analyzeHandler ⟨.ok ⟨true, false, 3⟩, false,
        .ok ⟨true, false, 3⟩, .ok (), false, 5, 9⟩ [] [⟨0, 2, some ['t'], 0⟩]
        1 ['t', '?', 'x']).events ∧
    Ev.releaseEv ∉ (analyzeHandler ⟨.ok ⟨true, false, 3⟩, false,
        .ok ⟨true, false, 3⟩, .ok (), false, 5, 9⟩ [] [⟨0, 2, some ['t'], 0⟩]
        1 ['t', '?', 'x']).events ∧
    (analyzeHandler ⟨.ok ⟨true, false, 3⟩, false, .ok ⟨true, false, 3⟩,
        .ok (), false, 5, 9⟩ [] [⟨0, 2, some ['t'], 0⟩]
        1 ['t', '?', 'x']).resp =
      { status := 200, error := none, recipeId := some 5,
        alreadyExists := true, duplicated := true } := by
  decide

/-- Claim C1 amended: on the global-duplicate path the admission controller
    only checks (but never acquires) the single-flight registry — the
    conflict check precedes both duplicate lookups, the lock is recorded
    only after the global-duplicate branch — and on a hit with generation
    rights it clones, debits unless premium, and responds `alreadyExists,
    duplicated` without ever having held the lock, so no release happens. -/
theorem C1_amended_no_lock_on_duplicate (env : AnalyzeEnv) (locks : Locks)
    (db : List Recipe) (u : UserId) (url : Url) (g : Recipe) (cg : CanGen)
    (hlock : hasKey locks u = false)
    (howner : getExistingRecipeByUrl db u url = none)
    (hglob : findRecipeByUrlGlobal db url = some g)
    (hcg : env.canGenDup = .ok cg)
    (hcan : cg.canGenerate = true)
    (hdup : env.dupFails = false) :
    (analyzeHandler env locks db u url).resp = respOk env.freshId true true ∧
    (analyzeHandler env locks db u url).locks = locks ∧
    (analyzeHandler env locks db u url).events =
      [.conflictCheck, .ownerLookupEv, .globalLookupEv, .canGenEv, .cloneEv]
        ++ (if cg.isPremium then [] else [.debitEv]) ∧
    Ev.acquireEv ∉ (analyzeHandler env locks db u url).events ∧
    Ev.releaseEv ∉ (analyzeHandler env locks db u url).events := by
  have hres : analyzeHandler env locks db u url =
      ⟨respOk env.freshId true true, db ++ [⟨env.freshId, u, g.source_url, env.now⟩],
        locks, [.conflictCheck, .ownerLookupEv, .globalLookupEv, .canGenEv,
          .cloneEv] ++ (if cg.isPremium then [] else [.debitEv])⟩ := by
    unfold analyzeHandler
    rw [if_neg (by simp [hlock]), howner, hglob, hcg]
    simp [hcan, hdup, duplicateRecipeForUser]
  refine ⟨by rw [hres], by rw [hres], by rw [hres], ?_, ?_⟩ <;>
    rw [hres] <;> cases cg.isPremium <;> simp

/-- Witness for the amended C1 with a concrete non-premium requester. -/
theorem C1_amended_no_lock_on_duplicate_witness :
    (analyzeHandler ⟨.ok ⟨true, false, 3⟩, false, .ok ⟨true, false, 3⟩,
        .ok (), false, 5, 9⟩ [] [⟨0, 2, some ['t'], 0⟩] 1
        ['t', '?', 'x']).resp = respOk 5 true true ∧
    (analyzeHandler ⟨.ok ⟨true, false, 3⟩, false, .ok ⟨true, false, 3⟩,
        .ok (), false, 5, 9⟩ [] [⟨0, 2, some ['t'], 0⟩] 1
        ['t', '?', 'x']).locks = [] ∧
    (analyzeHandler ⟨.ok ⟨true, false, 3⟩, false, .ok ⟨true, false, 3⟩,
        .ok (), false, 5, 9⟩ [] [⟨0, 2, some ['t'], 0⟩] 1
        ['t', '?', 'x']).events =
      [.conflictCheck, .ownerLookupEv, .globalLookupEv, .canGenEv, .cloneEv]
        ++ (if (false : Bool) then [] else [.debitEv]) ∧
    Ev.acquireEv ∉ (analyzeHandler ⟨.ok ⟨true, false, 3⟩, false,
        .ok ⟨true, false, 3⟩, .ok (), false, 5, 9⟩ [] [⟨0, 2, some ['t'], 0⟩]
        1 ['t', '?', 'x']).events ∧
    Ev.releaseEv ∉ (analyzeHandler ⟨.ok ⟨true, false, 3⟩, false,
        .ok ⟨true, false, 3⟩, .ok (), false, 5, 9⟩ [] [⟨0, 2, some ['t'], 0⟩]
        1 ['t', '?', 'x']).events :=
  C1_amended_no_lock_on_duplicate
    ⟨.ok ⟨true, false, 3⟩, false, .ok ⟨true, false, 3⟩, .ok (), false, 5, 9⟩
    [] [⟨0, 2, some ['t'], 0⟩] 1 ['t', '?', 'x'] ⟨0, 2, some ['t'], 0⟩
    ⟨true, false, 3⟩ (by decide) (by decide) (by decide) rfl rfl rfl

/-! ### C10: errors on the duplication path fall through to fresh analysis -/

/-- Claim C10: on the global-duplicate path, an error thrown while checking
    generation rights or while cloning (as opposed to the explicit
    `PREMIUM_REQUIRED` denial) is swallowed, and the request produces
    exactly the outcome of a full fresh analysis of the URL — same response,
    same store, same lock map — never the clone response (`duplicated`
    stays false). -/
theorem C10_duplicate_errors_fall_through (env : AnalyzeEnv) (locks : Locks)
    (db : List Recipe) (u : UserId) (url : Url) (g : Recipe)
    (hlock : hasKey locks u = false)
    (howner : getExistingRecipeByUrl db u url = none)
    (hglob : findRecipeByUrlGlobal db url = some g)
    (herr : env.canGenDup = .error () ∨
      ∃ cg, env.canGenDup = .ok cg ∧ cg.canGenerate = true ∧
        env.dupFails = true) :
    (analyzeHandler env locks db u url).resp =
      (freshAnalysis env locks db u url).resp ∧
    (analyzeHandler env locks db u url).db =
      (freshAnalysis env locks db u url).db ∧
    (analyzeHandler env locks db u url).locks =
      (freshAnalysis env locks db u url).locks ∧
    (analyzeHandler env locks db u url).resp.duplicated = false := by
  have hw : ∀ pre, ((withEvents pre (freshAnalysis env locks db u url)).resp =
        (freshAnalysis env locks db u url).resp ∧
      (withEvents pre (freshAnalysis env locks db u url)).db =
        (freshAnalysis env locks db u url).db ∧
      (withEvents pre (freshAnalysis env locks db u url)).locks =
        (freshAnalysis env locks db u url).locks ∧
      (withEvents pre (freshAnalysis env locks db u url)).resp.duplicated =
        false) := by
    intro pre
    refine ⟨rfl, rfl, rfl, ?_⟩
    show (freshAnalysis env locks db u url).resp.duplicated = false
    exact freshAnalysis_duplicated env locks db u url
  unfold analyzeHandler
  rw [if_neg (by simp [hlock]), howner, hglob]
  rcases herr with hcg | ⟨cg, hcg, hcan, hdup⟩
  · rw [hcg]
    exact hw _
  · rw [hcg]
    simp only [hcan, hdup]
    rw [if_pos trivial]
    exact hw _

/-- Witness for C10: the rights check throws on the duplication path;
    the request runs the full pipeline and answers like a fresh analysis. -/
theorem C10_duplicate_errors_fall_through_witness :
    (analyzeHandler ⟨.error (), false, .ok ⟨true, false, 3⟩, .ok (), false,
        5, 9⟩ [] [⟨0, 2, some ['t'], 0⟩] 1 ['t', '?', 'x']).resp =
      (freshAnalysis ⟨.error (), false, .ok ⟨true, false, 3⟩, .ok (), false,
        5, 9⟩ [] [⟨0, 2, some ['t'], 0⟩] 1 ['t', '?', 'x']).resp ∧
    (analyzeHandler ⟨.error (), false, .ok ⟨true, false, 3⟩, .ok (), false,
        5, 9⟩ [] [⟨0, 2, some ['t'], 0⟩] 1 ['t', '?', 'x']).db =
      (freshAnalysis ⟨.error (), false, .ok ⟨true, false, 3⟩, .ok (), false,
        5, 9⟩ [] [⟨0, 2, some ['t'], 0⟩] 1 ['t', '?', 'x']).db ∧
    (analyzeHandler ⟨.error (), false, .ok ⟨true, false, 3⟩, .ok (), false,
        5, 9⟩ [] [⟨0, 2, some ['t'], 0⟩] 1 ['t', '?', 'x']).locks =
      (freshAnalysis ⟨.error (), false, .ok ⟨true, false, 3⟩, .ok (), false,
        5, 9⟩ [] [⟨0, 2, some ['t'], 0⟩] 1 ['t', '?', 'x']).locks ∧
    (analyzeHandler ⟨.error (), false, .ok ⟨true, false, 3⟩, .ok (), false,
        5, 9⟩ [] [⟨0, 2, some ['t'], 0⟩] 1
        ['t', '?', 'x']).resp.duplicated = false :=
  C10_duplicate_errors_fall_through
    ⟨.error (), false, .ok ⟨true, false, 3⟩, .ok (), false, 5, 9⟩
    [] [⟨0, 2, some ['t'], 0⟩] 1 ['t', '?', 'x'] ⟨0, 2, some ['t'], 0⟩
    (by decide) (by decide) (by decide) (Or.inl rfl)

/-! ### C4: owner-scoped idempotence of two identical requests -/

/-- Claim C4: for any user, URL, store and lock map (the user idle, the
    store strictly older than the first request's insertion time), if a
    first `/analyze` request succeeds (status 200) with some recipe id,
    then an identical second request issued on the resulting state answers
    200 with the **same** id and `alreadyExists: true`, through the owner
    lookup, which returns the most recent recipe of the user whose
    `source_url` begins with the normalized URL. -/
theorem C4_owner_idempotence (env1 env2 : AnalyzeEnv) (locks : Locks)
    (db : List Recipe) (u : UserId) (url : Url) (rid : Nat)
    (hlock : hasKey locks u = false)
    (hfresh : ∀ r ∈ db, r.created_at < env1.now)
    (h200 : (analyzeHandler env1 locks db u url).resp.status = 200)
    (hid : (analyzeHandler env1 locks db u url).resp.recipeId = some rid) :
    (analyzeHandler env2 (analyzeHandler env1 locks db u url).locks
        (analyzeHandler env1 locks db u url).db u url).resp =
      respOk rid true false := by
  have hlocks1 : (analyzeHandler env1 locks db u url).locks = locks :=
    analyzeHandler_locks env1 locks db u url hlock
  have hfreshcase : ∀ pre : List Ev,
      (withEvents pre (freshAnalysis env1 locks db u url)).resp.status = 200 →
      (withEvents pre (freshAnalysis env1 locks db u url)).resp.recipeId =
        some rid →
      ∃ r2 : Recipe, getExistingRecipeByUrl
          (withEvents pre (freshAnalysis env1 locks db u url)).db u url =
        some r2 ∧ r2.id = rid := by
    intro pre h200f hidf
    have h200g : (freshAnalysis env1 locks db u url).resp.status = 200 := h200f
    obtain ⟨hi, hdb⟩ := freshAnalysis_of_200 h200g
    have hdb2 : (withEvents pre (freshAnalysis env1 locks db u url)).db =
        db ++ [⟨env1.freshId, u, some url, env1.now⟩] := hdb
    rw [hdb2]
    refine ⟨_, getExisting_append rfl
      ⟨url, rfl, isPrefixL_normalized url⟩ hfresh, ?_⟩
    have h2 : some env1.freshId = some rid := by
      rw [← hi]; exact hidf
    exact Option.some.inj h2
  have howner2 : ∃ r2 : Recipe,
      getExistingRecipeByUrl (analyzeHandler env1 locks db u url).db u url =
        some r2 ∧ r2.id = rid := by
    unfold analyzeHandler at h200 hid ⊢
    rw [if_neg (by simp [hlock])] at h200 hid ⊢
    rcases howner : getExistingRecipeByUrl db u url with _ | r
    · simp only [howner] at h200 hid
      rcases hglob : findRecipeByUrlGlobal db url with _ | g
      · simp only [hglob] at h200 hid
        exact hfreshcase _ h200 hid
      · simp only [hglob] at h200 hid
        rcases hcg : env1.canGenDup with e | cg
        · simp only [hcg] at h200 hid
          exact hfreshcase _ h200 hid
        · simp only [hcg] at h200 hid
          dsimp only
          by_cases hcan : cg.canGenerate = false
          · rw [if_pos hcan] at h200
            exact absurd h200 (by simp [respErr])
          · rw [if_neg hcan] at h200 hid ⊢
            by_cases hdup1 : env1.dupFails = true
            · rw [if_pos hdup1] at h200 hid ⊢
              exact hfreshcase _ h200 hid
            · rw [if_neg hdup1] at h200 hid ⊢
              have hridv : env1.freshId = rid := by
                have h3 : some (duplicateRecipeForUser g u env1.freshId
                    env1.now).id = some rid := hid
                exact Option.some.inj h3
              obtain ⟨s, hsome, hpre⟩ := findGlobal_source hglob
              refine ⟨_, getExisting_append
                (n := duplicateRecipeForUser g u env1.freshId env1.now) rfl
                ⟨s, hsome, hpre⟩ hfresh, hridv⟩
    · simp only [howner] at h200 hid
      exact ⟨r, howner, by simpa [respOk] using hid⟩
  obtain ⟨r2, hr2, hr2id⟩ := howner2
  rw [hlocks1]
  set db2 := (analyzeHandler env1 locks db u url).db with hdb2
  unfold analyzeHandler
  rw [if_neg (by simp [hlock]), hr2]
  dsimp only
  rw [hr2id]

/-- Witness for C4: a first request by user 1 for URL `"t"` on an empty
    store analyzes and saves recipe 7; the identical second request answers
    200 with the same id 7 and `alreadyExists: true`. -/
theorem C4_owner_idempotence_witness :
    (analyzeHandler
        ⟨.ok ⟨true, false, 3⟩, false, .ok ⟨true, false, 3⟩, .ok (), false, 7, 5⟩
        (analyzeHandler ⟨.ok ⟨true, false, 3⟩, false, .ok ⟨true, false, 3⟩,
          .ok (), false, 7, 5⟩ [] [] 1 ['t']).locks
        (analyzeHandler ⟨.ok ⟨true, false, 3⟩, false, .ok ⟨true, false, 3⟩,
          .ok (), false, 7, 5⟩ [] [] 1 ['t']).db 1 ['t']).resp =
      respOk 7 true false :=
  C4_owner_idempotence
    ⟨.ok ⟨true, false, 3⟩, false, .ok ⟨true, false, 3⟩, .ok (), false, 7, 5⟩
    ⟨.ok ⟨true, false, 3⟩, false, .ok ⟨true, false, 3⟩, .ok (), false, 7, 5⟩
    [] [] 1 ['t'] 7 (by decide) (by simp) (by decide) (by decide)

/-! ### C3: the IP scope of the standard rate profile -/

/-- After `k` requests (`1 ≤ k ≤ 20`) all inside the minute window opened
    by the first one, the IP entry counts `k`, is unblocked, and no durable
    block exists. -/
theorem ipRun_window (times : Nat → Nat)
    (hwin : ∀ k, 1 ≤ k → k ≤ 20 → times k < times 0 + 60000) :
    ∀ k, 1 ≤ k → k ≤ 20 →
      ipRun times k = ⟨some ⟨k, times 0 + 60000, false, 0⟩, none⟩ := by
  intro k
  induction k with
  | zero => intro h1 _; cases h1
  | succ k ih =>
    intro _ hk
    rcases Nat.eq_zero_or_pos k with hz | hpos
    · subst hz
      simp [ipRun, rlStep, checkLimit, checkLimitTail, checkBlockedInDb,
        ipConfig]
    · have hkw := hwin k hpos (Nat.le_of_succ_le hk)
      have hstate := ih hpos (Nat.le_of_succ_le hk)
      show (rlStep ipConfig (ipRun times k) (times k)).2 = _
      rw [hstate]
      simp only [rlStep, checkLimit, checkLimitTail, checkBlockedInDb,
        ipConfig]
      rw [if_neg (by simp)]
      rw [if_neg (by omega)]
      rw [if_neg (by omega)]

/-- Claim C3 amended, for 21 requests from one IP inside the minute window
    opened by the first: the first 20 are allowed; the 21st is denied with
    HTTP 429 and error code `IP_BLOCKED` (not `IP_RATE_LIMITED`: every
    denial of `checkLimit` carries `blocked: true`) with `Retry-After` 600
    seconds; and any request during the following 10 minutes is denied with
    `IP_BLOCKED` and `Retry-After` the remaining seconds, rounded up. -/
theorem C3_amended_ip_scope (times : Nat → Nat)
    (hwin : ∀ k, 1 ≤ k → k ≤ 20 → times k < times 0 + 60000) :
    (∀ k, k < 20 → (ipRes times k).allowed = true) ∧
    ipScopeResponse (ipRes times 20) = some ⟨429, .IP_BLOCKED, 600⟩ ∧
    (∀ t, t < times 20 + 600000 →
      ipScopeResponse (rlStep ipConfig (ipRun times 21) t).1 =
        some ⟨429, .IP_BLOCKED, ceilSec (times 20 + 600000 - t)⟩) := by
  have h20 : ipRun times 20 = ⟨some ⟨20, times 0 + 60000, false, 0⟩, none⟩ :=
    ipRun_window times hwin 20 (by omega) (by omega)
  have hwin20 := hwin 20 (by omega) (by omega)
  have hres20 : ipRes times 20 = ⟨false, 0, 600, true⟩ := by
    unfold ipRes
    rw [h20]
    simp only [rlStep, checkLimit, checkLimitTail, checkBlockedInDb, ipConfig]
    rw [if_neg (by simp)]
    rw [if_neg (by omega)]
    rw [if_pos (by omega)]
    rfl
  have h21 : ipRun times 21 =
      ⟨some ⟨21, times 0 + 60000, true, times 20 + 600000⟩,
        some (times 20 + 600000)⟩ := by
    show (rlStep ipConfig (ipRun times 20) (times 20)).2 = _
    rw [h20]
    simp only [rlStep, checkLimit, checkLimitTail, checkBlockedInDb, ipConfig]
    rw [if_neg (by simp)]
    rw [if_neg (by omega)]
    rw [if_pos (by omega)]
  refine ⟨?_, ?_, ?_⟩
  · intro k hk
    rcases Nat.eq_zero_or_pos k with hz | hpos
    · subst hz
      simp [ipRes, ipRun, rlStep, checkLimit, checkLimitTail,
        checkBlockedInDb, ipConfig]
    · have hkw := hwin k hpos (by omega)
      have hstate := ipRun_window times hwin k hpos (by omega)
      unfold ipRes
      rw [hstate]
      simp only [rlStep, checkLimit, checkLimitTail, checkBlockedInDb,
        ipConfig]
      rw [if_neg (by simp)]
      rw [if_neg (by omega)]
      rw [if_neg (by omega)]
  · rw [hres20]
    rfl
  · intro t ht
    rw [h21]
    simp only [rlStep, checkLimit, checkLimitTail, checkBlockedInDb, ipConfig]
    rw [if_pos (by exact ⟨trivial, by omega⟩)]
    simp [ipScopeResponse]

/-- Witness for the amended C3 with all 21 requests at time 0 and a 22nd
    request 100 seconds later. -/
theorem C3_amended_ip_scope_witness :
    ((fun _ => 0) 1 < (fun _ => 0) 0 + 60000 ∧
      (ipRes (fun _ => 0) 10).allowed = true) ∧
    ipScopeResponse (ipRes (fun _ => 0) 20) = some ⟨429, .IP_BLOCKED, 600⟩ ∧
    ipScopeResponse (rlStep ipConfig (ipRun (fun _ => 0) 21) 100000).1 =
      some ⟨429, .IP_BLOCKED, ceilSec ((fun _ => 0) 20 + 600000 - 100000)⟩ :=
  ⟨⟨by decide, (C3_amended_ip_scope (fun _ => 0)
      (by intro k h1 h2; norm_num)).1 10 (by decide)⟩,
   (C3_amended_ip_scope (fun _ => 0) (by intro k h1 h2; norm_num)).2.1,
   (C3_amended_ip_scope (fun _ => 0) (by intro k h1 h2; norm_num)).2.2 100000
     (by decide)⟩

/-- Counterexample to claim C3 as stated: at a concrete run of 21 requests
    from one IP at time 0, the 21st denial carries error code `IP_BLOCKED`,
    not the claimed `IP_RATE_LIMITED` (which `rateLimiter` can never emit,
    since every `checkLimit` denial reports `blocked: true`). -/
theorem C3_counterexample :
    (ipScopeResponse (ipRes (fun _ => 0) 20)).map RLDenial.code =
      some .IP_BLOCKED ∧
    ErrCode.IP_BLOCKED ≠ ErrCode.IP_RATE_LIMITED := by
  decide

/-! ### C6: the fuzzy similarity score counts words with multiplicity -/

/-- A boolean prefix implies the length inequality. -/
theorem isPrefixL_length {a b : List Char} (h : isPrefixL a b = true) :
    a.length ≤ b.length :=
  ((isPrefixL_iff a b).mp h).length_le

/-- A substring is no longer than the string containing it. -/
theorem isSubstrL_true_length {n hay : List Char}
    (hs : isSubstrL n hay = true) : n.length ≤ hay.length := by
  unfold isSubstrL at hs
  obtain ⟨i, _, hp⟩ := List.any_eq_true.mp hs
  have h1 := isPrefixL_length hp
  have h2 : (hay.drop i).length = hay.length - i := List.length_drop i hay
  omega

/-- An equal-length substring is the whole string. -/
theorem isSubstrL_eq_of_length {n hay : List Char}
    (hs : isSubstrL n hay = true) (hl : n.length = hay.length) : n = hay := by
  unfold isSubstrL at hs
  obtain ⟨i, _, hp⟩ := List.any_eq_true.mp hs
  have hpre := (isPrefixL_iff _ _).mp hp
  have hle := hpre.length_le
  rw [List.length_drop] at hle
  rcases Nat.eq_zero_or_pos i with hz | hpos
  · rw [hz, List.drop_zero] at hpre
    exact hpre.eq_of_length hl
  · have hz2 : hay.length = 0 := by omega
    have h2 : hay = [] := List.length_eq_zero.mp hz2
    have h3 : n = [] := List.length_eq_zero.mp (by omega)
    rw [h2, h3]

/-- Counterexample to claim C6: on the normalized names `"a a"` and
    `"a b"`, the code scores `1.0` (both words of the first list occur in
    the second list, counted with multiplicity, so `wordScore = 2/2`),
    while the reference set-based definition of the claim scores
    `max(|{a}| / |{a,b}|, 0.7) = 0.7`. -/
theorem C6_counterexample :
    similarityScore ['a', ' ', 'a'] ['a', ' ', 'b'] = 1 ∧
    refSimilarityScore ['a', ' ', 'a'] ['a', ' ', 'b'] = 7/10 ∧
    (1 : ℚ) ≠ 7/10 := by
  refine ⟨?_, ?_, by norm_num⟩
  · norm_num +decide [similarityScore, splitSp, isSubstrL, isPrefixL, maxQ,
      List.range_succ]
  · norm_num +decide [refSimilarityScore, splitSp, isSubstrL, isPrefixL,
      maxQ]

/-- Claim C6 amended: the code computes the word part of the score over the
    split word LISTS with multiplicity (`wordScore` is the number of
    positions of `str1`'s word list whose word occurs in `str2`'s word
    list, divided by the larger list length, and the `0.7` floor applies
    when every word of the list with no more words occurs in the other
    list).  Whenever the two word lists carry no duplicated word, it
    coincides with the claim's set-based reference definition. -/
theorem C6_amended_nodup_score (a b : List Char)
    (ha : (splitSp a).Nodup) (hb : (splitSp b).Nodup) :
    similarityScore a b = refSimilarityScore a b := by
  simp only [similarityScore, refSimilarityScore]
  simp only [List.dedup_eq_self.mpr ha, List.dedup_eq_self.mpr hb]
  by_cases hab : a = b
  · rw [if_pos hab, if_pos hab]
  · rw [if_neg hab, if_neg hab]
    have hsub : (3 ≤ Nat.min a.length b.length ∧
        (isSubstrL b a = true ∨ isSubstrL a b = true)) ↔
        (3 ≤ Nat.min a.length b.length ∧
          (if a.length ≤ b.length then isSubstrL a b = true
            else isSubstrL b a = true)) := by
      constructor
      · rintro ⟨hlen, hor⟩
        refine ⟨hlen, ?_⟩
        split_ifs with hle
        · rcases hor with h | h
          · have h1 := isSubstrL_true_length h
            have h2 : b.length = a.length := Nat.le_antisymm h1 hle
            exact absurd (isSubstrL_eq_of_length h h2)
              fun hba => hab hba.symm
          · exact h
        · rcases hor with h | h
          · exact h
          · have h1 := isSubstrL_true_length h
            omega
      · rintro ⟨hlen, hif⟩
        refine ⟨hlen, ?_⟩
        split_ifs at hif with hle
        · exact Or.inr hif
        · exact Or.inl hif
    by_cases hcond : 3 ≤ Nat.min a.length b.length ∧
        (isSubstrL b a = true ∨ isSubstrL a b = true)
    · rw [if_pos hcond, if_pos (hsub.mp hcond)]
    · rw [if_neg hcond, if_neg fun hc => hcond (hsub.mpr hc)]
      have hlong : (if (splitSp b).length < (splitSp a).length
            then splitSp a else splitSp b) =
          (if (splitSp a).length ≤ (splitSp b).length
            then splitSp b else splitSp a) := by
        by_cases hle : (splitSp a).length ≤ (splitSp b).length
        · rw [if_neg (by omega), if_pos hle]
        · rw [if_pos (by omega), if_neg hle]
      simp only [hlong]

/-- Witness for the amended C6 at the duplicate-free names `"a b"` and
    `"b"`. -/
theorem C6_amended_nodup_score_witness :
    similarityScore ['a', ' ', 'b'] ['b'] =
      refSimilarityScore ['a', ' ', 'b'] ['b'] :=
  C6_amended_nodup_score ['a', ' ', 'b'] ['b'] (by decide) (by decide)

/-! ### C7: `cleanDescription` -/

/-- An adjacent pair satisfying `p` is a decomposition of the list. -/
theorem hasAdjPair_eq_true_iff (p : Char → Char → Bool) :
    ∀ l : List Char, hasAdjPair p l = true ↔
      ∃ l1 a b l2, l = l1 ++ a :: b :: l2 ∧ p a b = true := by
  intro l
  induction l with
  | nil =>
    constructor
    · intro h; cases h
    · rintro ⟨l1, a, b, l2, hl, _⟩
      cases l1 <;> simp at hl
  | cons x rest ih =>
    cases rest with
    | nil =>
      constructor
      · intro h; cases h
      · rintro ⟨l1, a, b, l2, hl, _⟩
        rcases l1 with _ | ⟨c, l1⟩
        · simp at hl
        · simp only [List.cons_append, List.cons.injEq] at hl
          rcases hl with ⟨_, hl⟩
          exact absurd hl (by simp)
    | cons y rest2 =>
      constructor
      · intro h
        have h2 : (p x y || hasAdjPair p (y :: rest2)) = true := h
        rcases Bool.or_eq_true_iff.mp h2 with hp | hr
        · exact ⟨[], x, y, rest2, rfl, hp⟩
        · obtain ⟨l1, a, b, l2, hl, hp⟩ := ih.mp hr
          exact ⟨x :: l1, a, b, l2, by rw [List.cons_append, ← hl], hp⟩
      · rintro ⟨l1, a, b, l2, hl, hp⟩
        show (p x y || hasAdjPair p (y :: rest2)) = true
        cases l1 with
        | nil =>
          simp only [List.nil_append, List.cons.injEq] at hl
          obtain ⟨h1, h2, _⟩ := hl
          rw [← h1, ← h2] at hp
          simp [hp]
        | cons c l1 =>
          simp only [List.cons_append, List.cons.injEq] at hl
          refine Bool.or_eq_true_iff.mpr (Or.inr (ih.mpr ⟨l1, a, b, l2, hl.2, hp⟩))

/-- Adjacent-pair absence transfers to every contiguous sublist. -/
theorem hasAdjPair_false_infix {p : Char → Char → Bool} {l m : List Char}
    (hinf : m <:+: l) (h : hasAdjPair p l = false) :
    hasAdjPair p m = false := by
  by_contra hc
  have hm : hasAdjPair p m = true := by
    revert hc; cases hasAdjPair p m <;> simp
  obtain ⟨l1, a, b, l2, heq, hp⟩ := (hasAdjPair_eq_true_iff p m).mp hm
  obtain ⟨s, t, hst⟩ := hinf
  have h2 : hasAdjPair p l = true :=
    (hasAdjPair_eq_true_iff p l).mpr
      ⟨s ++ l1, a, b, l2 ++ t, by rw [← hst, heq]; simp, hp⟩
  rw [h] at h2
  cases h2

/-- Adjacent-pair absence is antitone in the pair predicate. -/
theorem hasAdjPair_mono {p q : Char → Char → Bool} {l : List Char}
    (himp : ∀ a b, q a b = true → p a b = true)
    (h : hasAdjPair p l = false) : hasAdjPair q l = false := by
  by_contra hc
  have hm : hasAdjPair q l = true := by
    revert hc; cases hasAdjPair q l <;> simp
  obtain ⟨l1, a, b, l2, heq, hp⟩ := (hasAdjPair_eq_true_iff q l).mp hm
  have h2 : hasAdjPair p l = true :=
    (hasAdjPair_eq_true_iff p l).mpr ⟨l1, a, b, l2, heq, himp a b hp⟩
  rw [h] at h2
  cases h2

/-- Extend adjacent-pair absence by one head character. -/
theorem hasAdjPair_cons_false {p : Char → Char → Bool} {a : Char}
    {l : List Char} (h1 : hasAdjPair p l = false)
    (h2 : ∀ b t, l = b :: t → p a b = false) :
    hasAdjPair p (a :: l) = false := by
  cases l with
  | nil => rfl
  | cons b t =>
    show (p a b || hasAdjPair p (b :: t)) = false
    rw [h2 b t rfl, h1]
    rfl

/-- Adjacent-pair absence restricts to the tail. -/
theorem hasAdjPair_tail {p : Char → Char → Bool} {a : Char} {l : List Char}
    (h : hasAdjPair p (a :: l) = false) : hasAdjPair p l = false := by
  cases l with
  | nil => rfl
  | cons b t =>
    have h2 : (p a b || hasAdjPair p (b :: t)) = false := h
    exact (Bool.or_eq_false_iff.mp h2).2

/-- The tag stripper emits no word character first when resumed from the
    `afterHash` or `inTag` states. -/
theorem stripTagsAux_head_not_word :
    ∀ l : List Char,
      (∀ c t, stripTagsAux .afterHash l = c :: t → isWordC c = false) ∧
      (∀ c t, stripTagsAux .inTag l = c :: t → isWordC c = false) := by
  intro l
  induction l with
  | nil =>
    constructor
    · intro c t h
      have h2 : ('#' : Char) :: [] = c :: t := h
      injection h2 with h1 _
      rw [← h1]; decide
    · intro c t h
      cases h
  | cons d rest ih =>
    constructor
    · intro c t h
      by_cases hw : isWordC d
      · rw [show stripTagsAux .afterHash (d :: rest) =
            stripTagsAux .inTag rest from by simp [stripTagsAux, hw]] at h
        exact ih.2 c t h
      · by_cases hh : d = '#'
        · rw [show stripTagsAux .afterHash (d :: rest) =
              '#' :: stripTagsAux .afterHash rest from by
                simp +decide [stripTagsAux, hw, hh]] at h
          injection h with h1 _
          rw [← h1]; decide
        · rw [show stripTagsAux .afterHash (d :: rest) =
              '#' :: d :: stripTagsAux .norm rest from by
                simp +decide [stripTagsAux, hw, hh]] at h
          injection h with h1 _
          rw [← h1]; decide
    · intro c t h
      by_cases hw : isWordC d
      · rw [show stripTagsAux .inTag (d :: rest) =
            stripTagsAux .inTag rest from by simp [stripTagsAux, hw]] at h
        exact ih.2 c t h
      · by_cases hh : d = '#'
        · rw [show stripTagsAux .inTag (d :: rest) =
              stripTagsAux .afterHash rest from by
                simp +decide [stripTagsAux, hw, hh]] at h
          exact ih.1 c t h
        · rw [show stripTagsAux .inTag (d :: rest) =
              d :: stripTagsAux .norm rest from by
                simp +decide [stripTagsAux, hw, hh]] at h
          injection h with h1 _
          rw [← h1]
          simpa using hw

/-- The output of the tag stripper never contains a hashtag pair. -/
theorem stripTagsAux_no_hashtag :
    ∀ (l : List Char) (st : TagSt),
      hasAdjPair hashtagPair (stripTagsAux st l) = false := by
  intro l
  induction l with
  | nil => intro st; cases st <;> rfl
  | cons d rest ih =>
    intro st
    cases st with
    | norm =>
      by_cases hh : d = '#'
      · rw [show stripTagsAux .norm (d :: rest) =
            stripTagsAux .afterHash rest from by simp [stripTagsAux, hh]]
        exact ih .afterHash
      · rw [show stripTagsAux .norm (d :: rest) =
            d :: stripTagsAux .norm rest from by simp [stripTagsAux, hh]]
        refine hasAdjPair_cons_false (ih .norm) ?_
        intro b t _
        simp [hashtagPair, hh]
    | afterHash =>
      by_cases hw : isWordC d
      · rw [show stripTagsAux .afterHash (d :: rest) =
            stripTagsAux .inTag rest from by simp [stripTagsAux, hw]]
        exact ih .inTag
      · by_cases hh : d = '#'
        · rw [show stripTagsAux .afterHash (d :: rest) =
              '#' :: stripTagsAux .afterHash rest from by
                simp +decide [stripTagsAux, hw, hh]]
          refine hasAdjPair_cons_false (ih .afterHash) ?_
          intro b t hbt
          have hbw := (stripTagsAux_head_not_word rest).1 b t hbt
          simp [hashtagPair, hbw]
        · rw [show stripTagsAux .afterHash (d :: rest) =
              '#' :: d :: stripTagsAux .norm rest from by
                simp +decide [stripTagsAux, hw, hh]]
          refine hasAdjPair_cons_false ?_ ?_
          · refine hasAdjPair_cons_false (ih .norm) ?_
            intro b t _
            simp [hashtagPair, hh]
          · intro b t hbt
            injection hbt with h1 _
            rw [← h1]
            simp only [hashtagPair]
            simpa using hw
    | inTag =>
      by_cases hw : isWordC d
      · rw [show stripTagsAux .inTag (d :: rest) =
            stripTagsAux .inTag rest from by simp [stripTagsAux, hw]]
        exact ih .inTag
      · by_cases hh : d = '#'
        · rw [show stripTagsAux .inTag (d :: rest) =
              stripTagsAux .afterHash rest from by
                simp +decide [stripTagsAux, hw, hh]]
          exact ih .afterHash
        · rw [show stripTagsAux .inTag (d :: rest) =
              d :: stripTagsAux .norm rest from by
                simp +decide [stripTagsAux, hw, hh]]
          refine hasAdjPair_cons_false (ih .norm) ?_
          intro b t _
          simp [hashtagPair, hh]

/-- Stripping is the identity on hash-free text. -/
theorem stripTagsAux_norm_id : ∀ {l : List Char}, '#' ∉ l →
    stripTagsAux .norm l = l := by
  intro l
  induction l with
  | nil => intro _; rfl
  | cons d rest ih =>
    intro h
    have hd : ¬(d = '#') := fun hc => h (hc ▸ List.mem_cons_self d rest)
    rw [show stripTagsAux .norm (d :: rest) =
        d :: stripTagsAux .norm rest from by simp [stripTagsAux, hd]]
    rw [ih fun hm => h (List.mem_cons_of_mem d hm)]

/-- Every character the whitespace collapser emits is a space or a
    character of the input. -/
theorem mem_collapseWsAux : ∀ (l : List Char) (b : Bool) (c : Char),
    c ∈ collapseWsAux b l → c = ' ' ∨ c ∈ l := by
  intro l
  induction l with
  | nil => intro b c h; simp [collapseWsAux] at h
  | cons d rest ih =>
    intro b c h
    by_cases hw : isJsWs d
    · cases b with
      | true =>
        rw [show collapseWsAux true (d :: rest) =
            collapseWsAux true rest from by simp [collapseWsAux, hw]] at h
        rcases ih true c h with h2 | h2
        · exact Or.inl h2
        · exact Or.inr (List.mem_cons_of_mem d h2)
      | false =>
        rw [show collapseWsAux false (d :: rest) =
            ' ' :: collapseWsAux true rest from by
              simp [collapseWsAux, hw]] at h
        rcases List.mem_cons.mp h with h2 | h2
        · exact Or.inl h2
        · rcases ih true c h2 with h3 | h3
          · exact Or.inl h3
          · exact Or.inr (List.mem_cons_of_mem d h3)
    · rw [show collapseWsAux b (d :: rest) =
          d :: collapseWsAux false rest from by simp [collapseWsAux, hw]] at h
      rcases List.mem_cons.mp h with h2 | h2
      · exact Or.inr (h2 ▸ List.mem_cons_self d rest)
      · rcases ih false c h2 with h3 | h3
        · exact Or.inl h3
        · exact Or.inr (List.mem_cons_of_mem d h3)

/-- Every whitespace character the collapser emits is a plain space. -/
theorem collapseWsAux_all_space : ∀ (l : List Char) (b : Bool) (c : Char),
    c ∈ collapseWsAux b l → isJsWs c = true → c = ' ' := by
  intro l
  induction l with
  | nil => intro b c h _; simp [collapseWsAux] at h
  | cons d rest ih =>
    intro b c h hws
    by_cases hw : isJsWs d
    · cases b with
      | true =>
        rw [show collapseWsAux true (d :: rest) =
            collapseWsAux true rest from by simp [collapseWsAux, hw]] at h
        exact ih true c h hws
      | false =>
        rw [show collapseWsAux false (d :: rest) =
            ' ' :: collapseWsAux true rest from by
              simp [collapseWsAux, hw]] at h
        rcases List.mem_cons.mp h with h2 | h2
        · exact h2
        · exact ih true c h2 hws
    · rw [show collapseWsAux b (d :: rest) =
          d :: collapseWsAux false rest from by simp [collapseWsAux, hw]] at h
      rcases List.mem_cons.mp h with h2 | h2
      · rw [h2] at hws; rw [hws] at hw; cases hw rfl
      · exact ih false c h2 hws

/-- Resumed inside a whitespace run, the collapser emits a non-whitespace
    character first. -/
theorem collapseWsAux_true_head : ∀ (l : List Char) (c : Char)
    (t : List Char), collapseWsAux true l = c :: t → isJsWs c = false := by
  intro l
  induction l with
  | nil => intro c t h; cases h
  | cons d rest ih =>
    intro c t h
    by_cases hw : isJsWs d
    · rw [show collapseWsAux true (d :: rest) =
          collapseWsAux true rest from by simp [collapseWsAux, hw]] at h
      exact ih c t h
    · rw [show collapseWsAux true (d :: rest) =
          d :: collapseWsAux false rest from by simp [collapseWsAux, hw]] at h
      injection h with h1 _
      rw [← h1]
      simpa using hw

/-- The collapser never emits two adjacent whitespace characters. -/
theorem collapseWsAux_noAdj : ∀ (l : List Char) (b : Bool),
    hasAdjPair wsPair (collapseWsAux b l) = false := by
  intro l
  induction l with
  | nil => intro b; rfl
  | cons d rest ih =>
    intro b
    by_cases hw : isJsWs d
    · cases b with
      | true =>
        rw [show collapseWsAux true (d :: rest) =
            collapseWsAux true rest from by simp [collapseWsAux, hw]]
        exact ih true
      | false =>
        rw [show collapseWsAux false (d :: rest) =
            ' ' :: collapseWsAux true rest from by simp [collapseWsAux, hw]]
        refine hasAdjPair_cons_false (ih true) ?_
        intro c t hct
        have hc := collapseWsAux_true_head rest c t hct
        simp [wsPair, hc]
    · rw [show collapseWsAux b (d :: rest) =
          d :: collapseWsAux false rest from by simp [collapseWsAux, hw]]
      refine hasAdjPair_cons_false (ih false) ?_
      intro c t _
      simp [wsPair, hw]

/-- Starting inside or outside a whitespace run makes no difference when
    the next character is not whitespace. -/
theorem collapseWsAux_true_eq_false {l : List Char}
    (h : ∀ c t, l = c :: t → isJsWs c = false) :
    collapseWsAux true l = collapseWsAux false l := by
  cases l with
  | nil => rfl
  | cons d rest =>
    have hd := h d rest rfl
    simp [collapseWsAux, hd]

/-- The collapser fixes any text whose whitespace is single plain spaces. -/
theorem collapseWsAux_fix : ∀ l : List Char,
    (∀ c ∈ l, isJsWs c = true → c = ' ') →
    hasAdjPair wsPair l = false →
    collapseWsAux false l = l := by
  intro l
  induction l with
  | nil => intro _ _; rfl
  | cons d rest ih =>
    intro hall hadj
    by_cases hw : isJsWs d
    · have hd : d = ' ' := hall d (List.mem_cons_self d rest) hw
      rw [show collapseWsAux false (d :: rest) =
          ' ' :: collapseWsAux true rest from by simp [collapseWsAux, hw]]
      have hhead : ∀ c t, rest = c :: t → isJsWs c = false := by
        intro c t hct
        subst hct
        have h2 : (wsPair d c || hasAdjPair wsPair (c :: t)) = false := hadj
        have h3 := (Bool.or_eq_false_iff.mp h2).1
        simpa [wsPair, hw] using h3
      rw [collapseWsAux_true_eq_false hhead]
      rw [ih (fun c hc hwc => hall c (List.mem_cons_of_mem d hc) hwc)
        (hasAdjPair_tail hadj)]
      rw [hd]
    · rw [show collapseWsAux false (d :: rest) =
          d :: collapseWsAux false rest from by simp [collapseWsAux, hw]]
      rw [ih (fun c hc hwc => hall c (List.mem_cons_of_mem d hc) hwc)
        (hasAdjPair_tail hadj)]

/-- Trimming yields a contiguous sublist. -/
theorem trimWs_infix_self (l : List Char) : trimWs l <:+: l := by
  have h1 : (l.dropWhile isJsWs).rdropWhile isJsWs <+: l.dropWhile isJsWs :=
    List.rdropWhile_prefix _ _
  have h2 : l.dropWhile isJsWs <:+ l := List.dropWhile_suffix _
  exact h1.isInfix.trans h2.isInfix

/-- The head surviving a `dropWhile` fails the predicate. -/
theorem dropWhile_head_false {p : Char → Bool} :
    ∀ {l : List Char} {a : Char} {t : List Char},
      l.dropWhile p = a :: t → p a = false := by
  intro l
  induction l with
  | nil => intro a t h; cases h
  | cons d rest ih =>
    intro a t h
    by_cases hp : p d
    · rw [List.dropWhile_cons, if_pos hp] at h
      exact ih h
    · rw [List.dropWhile_cons, if_neg hp] at h
      injection h with h1 _
      rw [← h1]
      simpa using hp

/-- Trimming is idempotent. -/
theorem trimWs_trim (l : List Char) : trimWs (trimWs l) = trimWs l := by
  unfold trimWs
  have hdy : ((l.dropWhile isJsWs).rdropWhile isJsWs).dropWhile isJsWs =
      (l.dropWhile isJsWs).rdropWhile isJsWs := by
    rcases hyy : (l.dropWhile isJsWs).rdropWhile isJsWs with _ | ⟨c, t⟩
    · rfl
    · have hpre : (c :: t) <+: l.dropWhile isJsWs := by
        rw [← hyy]
        exact List.rdropWhile_prefix _ _
      obtain ⟨s, hs⟩ := hpre
      have hds : l.dropWhile isJsWs = c :: (t ++ s) := by
        rw [← hs]; rfl
      have hnw : isJsWs c = false := dropWhile_head_false hds
      rw [List.dropWhile_cons, if_neg (by simp [hnw])]
  rw [hdy, List.rdropWhile_idempotent]

/-- Counterexample to claim C7: on `"a #b c"`, removing the hashtag after
    collapsing whitespace leaves `"a  c"`, which contains two consecutive
    spaces; a second application collapses them to `"a c"`, so
    `cleanDescription` is not idempotent. -/
theorem C7_counterexample :
    cleanDescription (cleanDescription ['a', ' ', '#', 'b', ' ', 'c']) ≠
      cleanDescription ['a', ' ', '#', 'b', ' ', 'c'] ∧
    hasDoubleSpace (cleanDescription ['a', ' ', '#', 'b', ' ', 'c']) =
      true := by
  decide

/-- Claim C7 amended: `cleanDescription`'s output never contains a hashtag
    substring, and on inputs containing no `#` character it is idempotent
    and its output contains no two consecutive spaces; in general, removing
    a hashtag between two spaces leaves consecutive spaces, so neither the
    no-double-space property nor idempotence holds for arbitrary inputs. -/
theorem C7_amended_clean_description :
    (∀ l : List Char, hasHashtag (cleanDescription l) = false) ∧
    (∀ l : List Char, '#' ∉ l →
      cleanDescription (cleanDescription l) = cleanDescription l ∧
      hasDoubleSpace (cleanDescription l) = false) := by
  constructor
  · intro l
    by_cases hl : l = []
    · subst hl; rfl
    · rw [cleanDescription, if_neg hl]
      show hasAdjPair hashtagPair
        (trimWs (stripTags (collapseWs l))) = false
      exact hasAdjPair_false_infix (trimWs_infix_self _)
        (stripTagsAux_no_hashtag (collapseWs l) .norm)
  · intro l hl
    by_cases hnil : l = []
    · subst hnil; exact ⟨rfl, rfl⟩
    · have hsharpc : '#' ∉ collapseWs l := by
        intro hc
        rcases mem_collapseWsAux l false '#' hc with h | h
        · exact absurd h (by decide)
        · exact hl h
      have hstrip : stripTags (collapseWs l) = collapseWs l :=
        stripTagsAux_norm_id hsharpc
      have hcl : cleanDescription l = trimWs (collapseWs l) := by
        rw [cleanDescription, if_neg hnil, hstrip]
      rw [hcl]
      have hyinf : trimWs (collapseWs l) <:+: collapseWs l := trimWs_infix_self _
      have hall : ∀ c ∈ trimWs (collapseWs l), isJsWs c = true → c = ' ' :=
        fun c hc => collapseWsAux_all_space l false c (hyinf.subset hc)
      have hadj : hasAdjPair wsPair (trimWs (collapseWs l)) = false :=
        hasAdjPair_false_infix hyinf (collapseWsAux_noAdj l false)
      constructor
      · by_cases hynil : trimWs (collapseWs l) = []
        · rw [hynil]; rfl
        · rw [cleanDescription, if_neg hynil]
          have hsharpy : '#' ∉ trimWs (collapseWs l) :=
            fun hc => hsharpc (hyinf.subset hc)
          have hcy : collapseWs (trimWs (collapseWs l)) =
              trimWs (collapseWs l) :=
            collapseWsAux_fix (trimWs (collapseWs l)) hall hadj
          have hstr2 : stripTags (trimWs (collapseWs l)) =
              trimWs (collapseWs l) := stripTagsAux_norm_id hsharpy
          rw [hcy, hstr2, trimWs_trim]
      · show hasAdjPair spacePair (trimWs (collapseWs l)) = false
        refine hasAdjPair_mono ?_ hadj
        intro a b hq
        obtain ⟨h1, h2⟩ := Bool.and_eq_true_iff.mp hq
        have ha : a = ' ' := by simpa using h1
        have hb : b = ' ' := by simpa using h2
        subst ha; subst hb
        decide

/-- Witness for the amended C7: the cleaned text `"a b"` has no hashtag,
    and on the hash-free input `" a  b "` cleaning is idempotent. -/
theorem C7_amended_clean_description_witness :
    hasHashtag (cleanDescription ['a', ' ', '#', 'b']) = false ∧
    ('#' ∉ [' ', 'a', ' ', ' ', 'b', ' '] ∧
      cleanDescription (cleanDescription [' ', 'a', ' ', ' ', 'b', ' ']) =
        cleanDescription [' ', 'a', ' ', ' ', 'b', ' ']) :=
  ⟨C7_amended_clean_description.1 ['a', ' ', '#', 'b'],
   by decide,
   (C7_amended_clean_description.2 [' ', 'a', ' ', ' ', 'b', ' ']
     (by decide)).1⟩

end Shortinho
